import Mathlib

/-!
Verification development for the rosu-pp-c beatmap difficulty / performance
library.

The Rust source is embedded shallowly:

* `f64` / `f32` arithmetic is modelled as exact real arithmetic (`ℝ`) where the
  formulas are transcendental (powers, exponentials, square roots), and as
  exact rational arithmetic (`ℚ`) where the claims need decidable evaluation
  (the legacy score simulator, the catch movement state, the taiko delta-time
  normalizer, the hit-result generator).  Machine rounding of individual
  float operations is outside the scope of this embedding; integer-valued
  intermediate results (scores, multipliers) are exact in `f64` anyway.
* Machine integers are modelled as `ℕ`/`ℤ`; the saturating `as i32`/`as u32`
  casts and the truncating float-to-int casts are modelled explicitly.
* Rust functions keep their source names (snake case) wherever Lean allows.
-/

open Classical

noncomputable section

namespace RosuPP

/-! ## Utility functions (src/util/difficulty.rs) -/

/-- The function `bpm_to_milliseconds` from src/util/difficulty.rs:
`60_000.0 / i32_unwrap_or(delimiter, 4) as f64 / bpm`. -/
def bpm_to_milliseconds (bpm : ℝ) (delimiter : Option ℤ) : ℝ :=
  60000 / ((delimiter.getD 4 : ℤ) : ℝ) / bpm

/-- The function `milliseconds_to_bpm` from src/util/difficulty.rs:
`60_000.0 / (ms * i32_unwrap_or(delimiter, 4) as f64)`. -/
def milliseconds_to_bpm (ms : ℝ) (delimiter : Option ℤ) : ℝ :=
  60000 / (ms * ((delimiter.getD 4 : ℤ) : ℝ))

/-- The function `logistic` from src/util/difficulty.rs:
`max_value.unwrap_or(1.0) / (1.0 + f64::exp(multiplier * (midpoint_offset - x)))`. -/
def logistic (x midpointOffset multiplier : ℝ) (maxValue : Option ℝ) : ℝ :=
  maxValue.getD 1 / (1 + Real.exp (multiplier * (midpointOffset - x)))

/-- Modelled from the spec: `FloatExt::eq` (src/util/float_ext.rs is absent from
the snapshot).  The spec describes it as the explicit "is difficulty value
approximately zero" guard; it is modelled as the absolute difference being
below the `f64` machine epsilon `2⁻⁵²`. -/
def float_ext_eq (a b : ℝ) : Prop :=
  |a - b| < (2 : ℝ) ^ (-52 : ℤ)

/-- The private helper `lerp` from src/osu/difficulty/skills/strain.rs:
`start + (end - start) * amount`. -/
def lerp (a b amount : ℝ) : ℝ :=
  a + (b - a) * amount

/-- Rust `f64::clamp(x, lo, hi)` (requires `lo ≤ hi`): `min hi (max lo x)`. -/
def f64_clamp (x lo hi : ℝ) : ℝ :=
  min hi (max lo x)

/-! ## Osu star rating (src/osu/difficulty/mod.rs) -/

/-- The constant `STAR_RATING_MULTIPLIER` from src/osu/difficulty/mod.rs. -/
def STAR_RATING_MULTIPLIER : ℝ := 0.0265

/-- Modelled from the spec: `PERFORMANCE_BASE_MULTIPLIER` is re-exported from
the osu performance calculator, which is absent from the snapshot; the spec
(§4.4) requires such constants to be literal copies from the reference
ruleset, whose value is `1.15`. -/
def PERFORMANCE_BASE_MULTIPLIER : ℝ := 1.15

/-- Rust `f64::cbrt`, the sign-preserving real cube root. -/
def cbrt (x : ℝ) : ℝ :=
  if x < 0 then -((-x) ^ ((1 : ℝ) / 3)) else x ^ ((1 : ℝ) / 3)

/-- The function `calculate_star_rating` from src/osu/difficulty/mod.rs: returns
`0.0` when `base_performance <= 0.00001`, and otherwise
`PERFORMANCE_BASE_MULTIPLIER.cbrt() * STAR_RATING_MULTIPLIER *
((100_000.0 / 2.0_f64.powf(1.0 / 1.1) * base_performance).cbrt() + 4.0)`. -/
def calculate_star_rating (basePerformance : ℝ) : ℝ :=
  if basePerformance ≤ 0.00001 then 0
  else
    cbrt PERFORMANCE_BASE_MULTIPLIER * STAR_RATING_MULTIPLIER *
      (cbrt (100000 / (2 : ℝ) ^ ((1 : ℝ) / 1.1) * basePerformance) + 4)

/-- The `base_performance` computation inside `DifficultyValues::eval`
(src/osu/difficulty/mod.rs): `(a.powf(1.1) + s.powf(1.1) + f.powf(1.1)).powf(1.0/1.1)`
over the three base performance values. -/
def eval_base_performance (baseAimPerformance baseSpeedPerformance baseFlashlightPerformance : ℝ) :
    ℝ :=
  (baseAimPerformance ^ (1.1 : ℝ) + baseSpeedPerformance ^ (1.1 : ℝ) +
      baseFlashlightPerformance ^ (1.1 : ℝ)) ^ ((1 : ℝ) / 1.1)

/-- Spec-side formulation (§4.4): the `L^1.1`-norm-like composition
`(Σ xᵢ^1.1)^(1/1.1)` over a list of per-skill performance values. -/
def spec_norm_composition (p : ℝ) (values : List ℝ) : ℝ :=
  (values.map (fun x => x ^ p)).sum ^ (1 / p)

/-- Spec-side constant `C` of the claimed star rescaling `C * (cbrt (K * perf) + 4)`. -/
def spec_star_rating_C : ℝ :=
  cbrt PERFORMANCE_BASE_MULTIPLIER * STAR_RATING_MULTIPLIER

/-- Spec-side constant `K` of the claimed star rescaling `C * (cbrt (K * perf) + 4)`. -/
def spec_star_rating_K : ℝ :=
  100000 / (2 : ℝ) ^ ((1 : ℝ) / 1.1)

/-! ## Top-weighted slider count (src/osu/difficulty/skills/strain.rs) -/

/-- The function `count_top_weighted_sliders` from src/osu/difficulty/skills/strain.rs:
returns `0.0` for an empty slice, guards against an approximately-zero
`difficulty_value / 10.0`, and otherwise sums
`logistic(s / consistent_top_strain, 0.88, 10.0, Some(1.1))` over the slider
strains. -/
def count_top_weighted_sliders (sliderStrains : List ℝ) (difficultyValue : ℝ) : ℝ :=
  if sliderStrains.isEmpty then 0
  else
    let consistentTopStrain := difficultyValue / 10
    if float_ext_eq consistentTopStrain 0 then 0
    else (sliderStrains.map (fun s => logistic (s / consistentTopStrain) 0.88 10 (some 1.1))).sum

end RosuPP

namespace RosuPP

/-! ## Strain-peak difficulty value (src/osu/difficulty/skills/strain.rs) -/

/-- The function `difficulty_value` from src/osu/difficulty/skills/strain.rs.
The `StrainsVec` container (src/util/strains_vec.rs is absent from the
snapshot) is modelled as a list of reals whose `sorted_non_zero_iter_mut`
removes all zero strains and yields the remaining strains in descending
order, per the source comments ("we remove all initial zeros here").  The
top `reduced_section_count` strains are softened by the log-interpolated
factor, the peaks are re-sorted descending, and the weighted-decay sum is
taken. -/
def difficulty_value (currentStrainPeaks : List ℝ) (reducedSectionCount : ℕ)
    (reducedStrainBaseline decayWeight : ℝ) : ℝ :=
  let peaks := (currentStrainPeaks.filter (fun s => s ≠ 0)).insertionSort (fun a b => b ≤ a)
  let scaled := peaks.enum.map fun p =>
    if p.1 < reducedSectionCount then
      p.2 * lerp reducedStrainBaseline 1
        (Real.logb 10 (lerp 1 10 (f64_clamp ((p.1 : ℝ) / (reducedSectionCount : ℝ)) 0 1)))
    else p.2
  let sorted := scaled.insertionSort (fun a b => b ≤ a)
  (sorted.foldl (fun (acc : ℝ × ℝ) strain => (acc.1 + strain * acc.2, acc.2 * decayWeight))
      (0, 1)).1

/-! ## Difficulty object chain construction (src/osu/difficulty/mod.rs) -/

/-- The loop body of `DifficultyValues::create_difficulty_objects`
(src/osu/difficulty/mod.rs): iterate the hit objects after the first,
keeping the previous raw object in `last` and fetching the one/two most
recently built difficulty objects from the accumulator, and append the
newly constructed difficulty object.  The object constructor
`OsuDifficultyObject::new` is abstracted as the parameter `mk` (the claims
settled here concern only the shape of the chain, not the derived
geometry). -/
def create_difficulty_objects_go (mk : α → α → Option β → Option β → ℕ → β) :
    α → List α → List β → List β
  | _, [], acc => acc
  | last, h :: t, acc =>
    let idx := acc.length
    let lastDiff := if 0 < idx then acc.get? (idx - 1) else none
    let lastLastDiff := if 1 < idx then acc.get? (idx - 2) else none
    create_difficulty_objects_go mk h t (acc ++ [mk h last lastDiff lastLastDiff idx])

/-- The function `DifficultyValues::create_difficulty_objects`
(src/osu/difficulty/mod.rs): returns the empty chain when `take == 0` or
there is no first hit object, and otherwise folds the remaining objects
through `create_difficulty_objects_go`. -/
def create_difficulty_objects (takeCount : ℕ) (osuObjects : List α)
    (mk : α → α → Option β → Option β → ℕ → β) : List β :=
  match osuObjects, takeCount with
  | [], _ => []
  | _, 0 => []
  | last :: rest, _ + 1 => create_difficulty_objects_go mk last rest []

end RosuPP

namespace RosuPP

/-! ## Claim C2: empty chain and zero difficulty for maps with at most one object -/

/-- C2: a map with 0 or 1 hit objects produces a difficulty-object chain of
length 0 (for every `passed_objects` cutoff and every object constructor),
and the strain skill's `difficulty_value` over the resulting empty
strain-peak sequence is exactly `0.0` (for every reduction/decay
parameter). -/
theorem claim_C2 :
    (∀ (α β : Type) (takeCount : ℕ) (osuObjects : List α)
      (mk : α → α → Option β → Option β → ℕ → β),
      osuObjects.length ≤ 1 → create_difficulty_objects takeCount osuObjects mk = []) ∧
    (∀ (reducedSectionCount : ℕ) (reducedStrainBaseline decayWeight : ℝ),
      difficulty_value [] reducedSectionCount reducedStrainBaseline decayWeight = 0) := by
  constructor
  · intro α β takeCount osuObjects mk hlen
    match osuObjects, takeCount with
    | [], 0 => rfl
    | [], _ + 1 => rfl
    | [_], 0 => rfl
    | [_], _ + 1 => rfl
    | _ :: _ :: _, _ => simp at hlen
  · intro reducedSectionCount reducedStrainBaseline decayWeight
    simp [difficulty_value]

/-- Witness for C2 at a concrete one-object map and concrete parameters. -/
theorem claim_C2_witness :
    create_difficulty_objects 5 [(3 : ℕ)] (fun (a : ℕ) (_ : ℕ) _ _ (_ : ℕ) => a) = [] ∧
    difficulty_value [] 10 0.75 0.9 = 0 :=
  ⟨claim_C2.1 ℕ ℕ 5 [3] (fun a _ _ _ _ => a) (by norm_num), claim_C2.2 10 0.75 0.9⟩

/-! ## Claim C4: bounds of the top-weighted slider count -/

/-- C4 (amended): `count_top_weighted_sliders` over `n` slider strains is
within `[0, 1.1 * n]` (each logistic membership value is capped at the
`max_value` `1.1`, not at `1.0`, so the total may exceed `n`), and it is
exactly `0.0` when the difficulty value is `0.0` or the slice is empty. -/
theorem claim_C4_amended (sliderStrains : List ℝ) (difficultyValue : ℝ) :
    0 ≤ count_top_weighted_sliders sliderStrains difficultyValue ∧
      count_top_weighted_sliders sliderStrains difficultyValue ≤ 1.1 * sliderStrains.length ∧
      (difficultyValue = 0 → count_top_weighted_sliders sliderStrains difficultyValue = 0) ∧
      (sliderStrains = [] → count_top_weighted_sliders sliderStrains difficultyValue = 0) := by
  have hterm : ∀ x : ℝ,
      0 ≤ logistic x 0.88 10 (some 1.1) ∧ logistic x 0.88 10 (some 1.1) ≤ 1.1 := by
    intro x
    have he : (0 : ℝ) < Real.exp (10 * (0.88 - x)) := Real.exp_pos _
    refine ⟨div_nonneg (by norm_num) (by linarith), div_le_self (by norm_num) (by linarith)⟩
  have hlen : (0 : ℝ) ≤ 1.1 * sliderStrains.length := by positivity
  have hval : count_top_weighted_sliders sliderStrains difficultyValue =
      if sliderStrains.isEmpty then 0
      else if float_ext_eq (difficultyValue / 10) 0 then 0
      else (sliderStrains.map
        (fun s => logistic (s / (difficultyValue / 10)) 0.88 10 (some 1.1))).sum := rfl
  have hsum : 0 ≤ count_top_weighted_sliders sliderStrains difficultyValue ∧
      count_top_weighted_sliders sliderStrains difficultyValue ≤ 1.1 * sliderStrains.length := by
    rw [hval]
    by_cases hemp : sliderStrains.isEmpty
    · rw [if_pos hemp]; exact ⟨le_refl 0, hlen⟩
    · rw [if_neg hemp]
      by_cases heq : float_ext_eq (difficultyValue / 10) 0
      · rw [if_pos heq]; exact ⟨le_refl 0, hlen⟩
      · rw [if_neg heq]
        constructor
        · exact List.sum_nonneg fun x hx => by
            obtain ⟨s, _, rfl⟩ := List.mem_map.mp hx
            exact (hterm _).1
        · calc (sliderStrains.map
                (fun s => logistic (s / (difficultyValue / 10)) 0.88 10 (some 1.1))).sum
              ≤ (sliderStrains.map
                (fun s => logistic (s / (difficultyValue / 10)) 0.88 10 (some 1.1))).length •
                  (1.1 : ℝ) := by
                refine List.sum_le_card_nsmul _ _ fun x hx => ?_
                obtain ⟨s, _, rfl⟩ := List.mem_map.mp hx
                exact (hterm _).2
            _ = 1.1 * sliderStrains.length := by
                rw [List.length_map, nsmul_eq_mul, mul_comm]
  refine ⟨hsum.1, hsum.2, fun hd => ?_, fun hl => ?_⟩
  · rw [hval]
    by_cases hemp : sliderStrains.isEmpty
    · rw [if_pos hemp]
    · rw [if_neg hemp, if_pos]
      rw [hd, float_ext_eq]
      norm_num
  · subst hl
    rfl

/-- Witness for C4 at a concrete strain list and difficulty value. -/
theorem claim_C4_witness :
    count_top_weighted_sliders [5] 0 = 0 ∧ count_top_weighted_sliders [] 7 = 0 :=
  ⟨(claim_C4_amended [5] 0).2.2.1 rfl, (claim_C4_amended [] 7).2.2.2 rfl⟩

/-- Counterexample to C4 as stated: for the single slider strain `30` and
difficulty value `10` the returned soft count exceeds `n = 1`, so the range
`[0, n]` claimed by the spec is violated (the logistic terms are capped at
`1.1`, not `1.0`). -/
theorem claim_C4_counterexample :
    1 < count_top_weighted_sliders [30] 10 := by
  have hne : ¬ float_ext_eq ((10 : ℝ) / 10) 0 := by
    rw [float_ext_eq]
    have h1 : ((2 : ℝ)) ^ (-52 : ℤ) ≤ 1 := zpow_le_one_of_nonpos₀ (by norm_num) (by norm_num)
    rw [not_lt]
    calc ((2 : ℝ)) ^ (-52 : ℤ) ≤ 1 := h1
      _ ≤ |(10 : ℝ) / 10 - 0| := by norm_num
  have hexp : Real.exp (10 * (0.88 - 30 / ((10 : ℝ) / 10))) < 0.1 := by
    have harg : (10 : ℝ) * (0.88 - 30 / ((10 : ℝ) / 10)) = -291.2 := by norm_num
    rw [harg, Real.exp_neg]
    have h10 : (10 : ℝ) < Real.exp 291.2 := by
      have := Real.add_one_le_exp (291.2 : ℝ)
      linarith
    calc (Real.exp 291.2)⁻¹ < (10 : ℝ)⁻¹ := inv_strictAnti₀ (by norm_num) h10
      _ ≤ 0.1 := by norm_num
  unfold count_top_weighted_sliders
  rw [if_neg (by simp), if_neg hne]
  simp only [List.map, List.sum_cons, List.sum_nil, add_zero, logistic, Option.getD_some]
  rw [one_lt_div (by positivity)]
  linarith

end RosuPP

namespace RosuPP

/-! ## Claim C7: rating composition formula -/

/-- C7: the rating composition combines the per-skill base performance values
via the `L^1.1`-norm-like formula `(Σ xᵢ^1.1)^(1/1.1)` and converts a
positive base performance to a star rating through the fixed nonlinear
rescaling `C * (cbrt (K * perf) + 4)` with `C = cbrt(PERFORMANCE_BASE_MULTIPLIER)
* STAR_RATING_MULTIPLIER` and `K = 100000 / 2^(1/1.1)`. -/
theorem claim_C7 :
    (∀ baseAim baseSpeed baseFlashlight : ℝ,
      eval_base_performance baseAim baseSpeed baseFlashlight =
        spec_norm_composition 1.1 [baseAim, baseSpeed, baseFlashlight]) ∧
    (∀ basePerformance : ℝ, 0.00001 < basePerformance →
      calculate_star_rating basePerformance =
        spec_star_rating_C * (cbrt (spec_star_rating_K * basePerformance) + 4)) := by
  constructor
  · intro baseAim baseSpeed baseFlashlight
    rw [eval_base_performance, spec_norm_composition]
    simp only [List.map, List.sum_cons, List.sum_nil, add_zero]
    congr 1
    ring
  · intro basePerformance hp
    rw [calculate_star_rating, if_neg (not_le.mpr hp), spec_star_rating_C, spec_star_rating_K]

/-- Witness for C7 at concrete performance values. -/
theorem claim_C7_witness :
    eval_base_performance 1 2 3 = spec_norm_composition 1.1 [1, 2, 3] ∧
    calculate_star_rating 1 = spec_star_rating_C * (cbrt (spec_star_rating_K * 1) + 4) :=
  ⟨claim_C7.1 1 2 3, claim_C7.2 1 (by norm_num)⟩

/-! ## Claim C10: zero cutoff of the star rating -/

/-- C10: `calculate_star_rating` returns exactly `0.0` for every base
performance at most `0.00001`, and a strictly positive value for every base
performance above `0.00001` (the `+ 4` offset never leaks a nonzero star
rating for near-zero performance because of the early return). -/
theorem claim_C10 :
    (∀ basePerformance : ℝ, basePerformance ≤ 0.00001 →
      calculate_star_rating basePerformance = 0) ∧
    (∀ basePerformance : ℝ, 0.00001 < basePerformance →
      0 < calculate_star_rating basePerformance) := by
  constructor
  · intro p hp
    rw [calculate_star_rating, if_pos hp]
  · intro p hp
    rw [calculate_star_rating, if_neg (not_le.mpr hp)]
    have h1 : (0 : ℝ) < cbrt PERFORMANCE_BASE_MULTIPLIER := by
      rw [cbrt, PERFORMANCE_BASE_MULTIPLIER, if_neg (by norm_num)]
      exact Real.rpow_pos_of_pos (by norm_num) _
    have hbase : (0 : ℝ) < 100000 / (2 : ℝ) ^ ((1 : ℝ) / 1.1) * p := by
      have h2 : (0 : ℝ) < (2 : ℝ) ^ ((1 : ℝ) / 1.1) := Real.rpow_pos_of_pos (by norm_num) _
      have : (0 : ℝ) < p := lt_trans (by norm_num) hp
      positivity
    have h3 : (0 : ℝ) ≤ cbrt (100000 / (2 : ℝ) ^ ((1 : ℝ) / 1.1) * p) := by
      rw [cbrt, if_neg (not_lt.mpr (le_of_lt hbase))]
      exact Real.rpow_nonneg (le_of_lt hbase) _
    have h4 : (0 : ℝ) < STAR_RATING_MULTIPLIER := by rw [STAR_RATING_MULTIPLIER]; norm_num
    have h5 : (0 : ℝ) < cbrt (100000 / (2 : ℝ) ^ ((1 : ℝ) / 1.1) * p) + 4 := by linarith
    positivity

/-- Witness for C10 at concrete base performance values on both sides of the
cutoff. -/
theorem claim_C10_witness :
    calculate_star_rating 0.00001 = 0 ∧ 0 < calculate_star_rating 1 :=
  ⟨claim_C10.1 0.00001 (by norm_num), claim_C10.2 1 (by norm_num)⟩

end RosuPP

end

namespace RosuPP

/-! ## Claim C6: catch catcher position (src/catch/difficulty/object.rs)

The `f32` positions of the catch mode are modelled as exact rationals. -/

/-- The constant `CatchDifficultyObject::NORMALIZED_HALF_CATCHER_WIDTH`. -/
def NORMALIZED_HALF_CATCHER_WIDTH : ℚ := 41

/-- The constant `CatchDifficultyObject::ABSOLUTE_PLAYER_POSITIONING_ERROR`. -/
def ABSOLUTE_PLAYER_POSITIONING_ERROR : ℚ := 16

/-- The `LastObject` data stored on a `CatchDifficultyObject`
(src/catch/difficulty/object.rs). -/
structure LastObject where
  hyperDash : Bool
  distToHyperDash : ℚ
  playerPos : Option ℚ
  deriving DecidableEq

/-- The movement-state fields computed by
`CatchDifficultyObject::set_movement_state`. -/
structure CatchMovementState where
  lastPlayerPos : ℚ
  playerPos : ℚ
  distMoved : ℚ
  exactDistMoved : ℚ
  deriving DecidableEq

/-- Rust `f32::clamp(x, lo, hi)` (requires `lo ≤ hi`), over the rational model. -/
def f32_clamp (x lo hi : ℚ) : ℚ :=
  min hi (max lo x)

/-- The method `CatchDifficultyObject::set_movement_state`
(src/catch/difficulty/object.rs): the last player position defaults to the
last normalized position, the new player position is the last player
position clamped into
`[normalized_pos - term, normalized_pos + term]` with
`term = NORMALIZED_HALF_CATCHER_WIDTH - ABSOLUTE_PLAYER_POSITIONING_ERROR`,
the moved distances are recorded, and after a hyperdash the player position
is overwritten with exactly the normalized position. -/
def set_movement_state (normalizedPos lastNormalizedPos : ℚ) (lastObject : LastObject) :
    CatchMovementState :=
  let lastPlayerPos := lastObject.playerPos.getD lastNormalizedPos
  let term := NORMALIZED_HALF_CATCHER_WIDTH - ABSOLUTE_PLAYER_POSITIONING_ERROR
  let playerPos := f32_clamp lastPlayerPos (normalizedPos - term) (normalizedPos + term)
  let distMoved := playerPos - lastPlayerPos
  let exactDistMoved := normalizedPos - lastPlayerPos
  { lastPlayerPos := lastPlayerPos
    playerPos := if lastObject.hyperDash then normalizedPos else playerPos
    distMoved := distMoved
    exactDistMoved := exactDistMoved }

/-- C6: the simulated catcher position after `set_movement_state` is the
previous player position (defaulting to the previous normalized position)
clamped to within `±(41 - 16)` of the current object's normalized position;
and when the previous object was a hyperdash the stored player position is
exactly the current normalized position. -/
theorem claim_C6 (normalizedPos lastNormalizedPos : ℚ) (lastObject : LastObject) :
    (lastObject.hyperDash = false →
      (set_movement_state normalizedPos lastNormalizedPos lastObject).playerPos =
        f32_clamp (lastObject.playerPos.getD lastNormalizedPos)
          (normalizedPos - (NORMALIZED_HALF_CATCHER_WIDTH - ABSOLUTE_PLAYER_POSITIONING_ERROR))
          (normalizedPos + (NORMALIZED_HALF_CATCHER_WIDTH - ABSOLUTE_PLAYER_POSITIONING_ERROR)) ∧
      |(set_movement_state normalizedPos lastNormalizedPos lastObject).playerPos -
          normalizedPos| ≤
        NORMALIZED_HALF_CATCHER_WIDTH - ABSOLUTE_PLAYER_POSITIONING_ERROR) ∧
    (lastObject.hyperDash = true →
      (set_movement_state normalizedPos lastNormalizedPos lastObject).playerPos =
        normalizedPos) := by
  constructor
  · intro hhd
    constructor
    · simp [set_movement_state, hhd]
    · simp only [set_movement_state, hhd, Bool.false_eq_true, if_false]
      rw [abs_sub_le_iff]
      constructor
      · simp only [f32_clamp, NORMALIZED_HALF_CATCHER_WIDTH, ABSOLUTE_PLAYER_POSITIONING_ERROR]
        have := min_le_left (normalizedPos + (41 - 16 : ℚ))
          (max (normalizedPos - (41 - 16)) (lastObject.playerPos.getD lastNormalizedPos))
        linarith
      · simp only [f32_clamp, NORMALIZED_HALF_CATCHER_WIDTH, ABSOLUTE_PLAYER_POSITIONING_ERROR]
        have h1 : normalizedPos - (41 - 16 : ℚ) ≤
            max (normalizedPos - (41 - 16)) (lastObject.playerPos.getD lastNormalizedPos) :=
          le_max_left _ _
        have h3 : normalizedPos - (41 - 16 : ℚ) ≤
            min (normalizedPos + (41 - 16))
              (max (normalizedPos - (41 - 16)) (lastObject.playerPos.getD lastNormalizedPos)) := by
          apply le_min
          · linarith
          · exact h1
        linarith
  · intro hhd
    simp [set_movement_state, hhd]

/-- Witness for C6 at concrete positions, on both the clamped and the
hyperdash path. -/
theorem claim_C6_witness :
    ((set_movement_state 100 10 ⟨false, 50, some 20⟩).playerPos =
        f32_clamp 20 (100 - (NORMALIZED_HALF_CATCHER_WIDTH - ABSOLUTE_PLAYER_POSITIONING_ERROR))
          (100 + (NORMALIZED_HALF_CATCHER_WIDTH - ABSOLUTE_PLAYER_POSITIONING_ERROR)) ∧
      |(set_movement_state 100 10 ⟨false, 50, some 20⟩).playerPos - 100| ≤
        NORMALIZED_HALF_CATCHER_WIDTH - ABSOLUTE_PLAYER_POSITIONING_ERROR) ∧
    (set_movement_state 100 10 ⟨true, 50, some 20⟩).playerPos = 100 :=
  ⟨(claim_C6 100 10 ⟨false, 50, some 20⟩).1 rfl, (claim_C6 100 10 ⟨true, 50, some 20⟩).2 rfl⟩

end RosuPP

namespace RosuPP

/-! ## Claim C9: Fast osu hit-result generation
(src/osu/performance/hitresult_generator/fast.rs)

All `u32` quantities are modelled as naturals; `u32` additions that may wrap
are taken modulo `2^32`, the saturating `f64 -> u32` cast clamps into
`[0, 2^32 - 1]`, and `f64::round` rounds half away from zero.  The accuracy
input is modelled as an exact rational.  The `OsuScoreOrigin::tick_scores`
method lives in the osu module root, which is absent from the snapshot; it
is abstracted as an arbitrary function parameter, so the theorem below
holds for every possible implementation of it. -/

/-- Rust `f64::round` (round half away from zero), over the rational model. -/
def f64_round (q : ℚ) : ℤ :=
  if q < 0 then -⌊-q + 1 / 2⌋ else ⌊q + 1 / 2⌋

/-- Rust saturating `as u32` cast applied to an integer-valued `f64`. -/
def int_as_u32 (n : ℤ) : ℕ :=
  (min (2 ^ 32 - 1) (max 0 n)).toNat

/-- Wrapping `u32` addition. -/
def u32_add (a b : ℕ) : ℕ :=
  (a + b) % 2 ^ 32

/-- The input parameters `OsuHitResultParams`
(src/osu/performance/hitresult_generator/mod.rs); the `origin` field is
replaced by the `tickScores` function parameter of
`fast_generate_hitresults`. -/
structure OsuHitResultParams where
  totalHits : ℕ
  acc : ℚ
  largeTickHits : Option ℕ
  smallTickHits : Option ℕ
  sliderEndHits : Option ℕ
  misses : ℕ

/-- The output `OsuHitResults` fields produced by the generator. -/
structure OsuHitResults where
  largeTickHits : ℕ
  smallTickHits : ℕ
  sliderEndHits : ℕ
  n300 : ℕ
  n100 : ℕ
  n50 : ℕ
  misses : ℕ

/-- The function `Fast::generate_hitresults`
(src/osu/performance/hitresult_generator/fast.rs).  `tickScores` stands for
`params.origin.tick_scores(large, small, ends)` returning the pair
`(tick_score, tick_max)`. -/
def fast_generate_hitresults (tickScores : ℕ → ℕ → ℕ → ℕ × ℕ)
    (params : OsuHitResultParams) : OsuHitResults :=
  let largeTickHits := params.largeTickHits.getD 0
  let smallTickHits := params.smallTickHits.getD 0
  let sliderEndHits := params.sliderEndHits.getD 0
  let misses := min params.misses params.totalHits
  let remain := params.totalHits - misses
  if remain = 0 then
    { largeTickHits := largeTickHits, smallTickHits := smallTickHits
      sliderEndHits := sliderEndHits, n300 := 0, n100 := 0, n50 := 0, misses := misses }
  else
    let ts := tickScores largeTickHits smallTickHits sliderEndHits
    let targetTotal := int_as_u32 (f64_round
      (params.acc * (((6 * params.totalHits) % 2 ^ 32 : ℕ) + (ts.2 : ℚ) / 50)))
    let baseline := u32_add remain (ts.1 / 50)
    let delta := targetTotal - baseline
    let n300 := min remain (delta / 5)
    let n100 := min (remain - n300) (delta % 5)
    let n50 := remain - (n300 + n100)
    { largeTickHits := largeTickHits, smallTickHits := smallTickHits
      sliderEndHits := sliderEndHits, n300 := n300, n100 := n100, n50 := n50, misses := misses }

/-- C9: for every tick-score function and every input, the hit results
returned by the Fast generator satisfy
`n300 + n100 + n50 + misses = total_hits`, and the returned miss count is
the input miss count clamped to `total_hits`. -/
theorem claim_C9 (tickScores : ℕ → ℕ → ℕ → ℕ × ℕ) (params : OsuHitResultParams) :
    (fast_generate_hitresults tickScores params).n300 +
        (fast_generate_hitresults tickScores params).n100 +
        (fast_generate_hitresults tickScores params).n50 +
        (fast_generate_hitresults tickScores params).misses = params.totalHits ∧
      (fast_generate_hitresults tickScores params).misses =
        min params.misses params.totalHits := by
  unfold fast_generate_hitresults
  by_cases hrem : params.totalHits - min params.misses params.totalHits = 0
  · simp only [hrem, if_pos]
    refine ⟨?_, trivial⟩
    have := min_le_right params.misses params.totalHits
    omega
  · simp only [hrem, if_neg, ite_false]
    refine ⟨?_, trivial⟩
    have hmin := min_le_right params.misses params.totalHits
    set remain := params.totalHits - min params.misses params.totalHits with hremdef
    set delta := int_as_u32 (f64_round
      (params.acc * (((6 * params.totalHits) % 2 ^ 32 : ℕ) +
        ((tickScores (params.largeTickHits.getD 0) (params.smallTickHits.getD 0)
          (params.sliderEndHits.getD 0)).2 : ℚ) / 50))) -
      u32_add remain ((tickScores (params.largeTickHits.getD 0) (params.smallTickHits.getD 0)
        (params.sliderEndHits.getD 0)).1 / 50) with hdelta
    have h300 : min remain (delta / 5) ≤ remain := min_le_left _ _
    have h100 : min (remain - min remain (delta / 5)) (delta % 5) ≤
        remain - min remain (delta / 5) := min_le_left _ _
    omega

end RosuPP

namespace RosuPP

/-! ## Claim C8: taiko delta-time normalizer
(src/taiko/difficulty/utils/delta_time_normalizer.rs)

The `f64` delta-times are modelled as exact rationals; the weak references
of the source are dropped (the chain is modelled as the list of delta-times
themselves), and the `HashMap` keyed by the exact bit pattern of the value
is modelled as a function built by overwriting updates keyed by the exact
rational value. -/

/-- Rust `f64::abs`, over the rational model (written so that it reduces by
kernel computation; it agrees with the absolute value, see `rat_abs_eq_abs`). -/
def rat_abs (q : ℚ) : ℚ :=
  if q < 0 then -q else q

lemma rat_abs_eq_abs (q : ℚ) : rat_abs q = |q| := by
  rw [rat_abs]
  by_cases h : q < 0
  · rw [if_pos h, abs_of_neg h]
  · rw [if_neg h, abs_of_nonneg (not_lt.mp h)]

/-- One `binary_search_by(total_cmp)` plus `insert` step building the
`distinct_and_ordered` list in `DeltaTimeNormalizer::normalize`: the value
is inserted at its sorted position unless an equal value is already
present. -/
def distinct_ordered_insert (v : ℚ) : List ℚ → List ℚ
  | [] => [v]
  | x :: xs =>
    if v < x then v :: x :: xs
    else if v = x then x :: xs
    else x :: distinct_ordered_insert v xs

/-- The `distinct_and_ordered` list of `DeltaTimeNormalizer::normalize`:
every delta-time of the chain is inserted in order of appearance. -/
def distinct_and_ordered (deltaTimes : List ℚ) : List ℚ :=
  deltaTimes.foldl (fun acc d => distinct_ordered_insert d acc) []

/-- The grouping loop of `DeltaTimeNormalizer::normalize`: a scanned value is
pushed onto the current group when `|value - curr[0]| <= margin_of_error`
(compared against the first element of the current group), and otherwise a
new group is started. -/
def normalize_group_go (marginOfError : ℚ) : List ℚ → List ℚ → List (List ℚ)
  | curr, [] => [curr]
  | curr, v :: rest =>
    if rat_abs (v - curr.headI) ≤ marginOfError then
      normalize_group_go marginOfError (curr ++ [v]) rest
    else curr :: normalize_group_go marginOfError [v] rest

/-- The `sets` produced by the grouping loop of
`DeltaTimeNormalizer::normalize`, starting from the sorted distinct list. -/
def normalize_groups (marginOfError : ℚ) : List ℚ → List (List ℚ)
  | [] => []
  | v :: rest => normalize_group_go marginOfError [v] rest

/-- The per-group median computation of `DeltaTimeNormalizer::normalize`:
sort, take the middle element for odd length and the mean of the two middle
elements for even length. -/
def median_of_set (s : List ℚ) : ℚ :=
  let sorted := s.insertionSort (· ≤ ·)
  let mid := sorted.length / 2
  if sorted.length % 2 = 1 then sorted.getD mid 0
  else (sorted.getD (mid - 1) 0 + sorted.getD mid 0) / 2

/-- The `median_lookup` map of `DeltaTimeNormalizer::normalize`: for each
group, every member is mapped (insert-with-overwrite) to the group's
median. -/
def median_lookup (sets : List (List ℚ)) : ℚ → Option ℚ :=
  sets.foldl
    (fun acc g => g.foldl (fun acc2 v => Function.update acc2 v (some (median_of_set g))) acc)
    (fun _ => none)

/-- The function `DeltaTimeNormalizer::normalize`
(src/taiko/difficulty/utils/delta_time_normalizer.rs): each delta-time of
the chain is mapped to the median of its tolerance group (falling back to
the delta-time itself when absent from the lookup). -/
def delta_time_normalize (hitObjectDeltas : List ℚ) (marginOfError : ℚ) : List (ℚ × ℚ) :=
  let sets := normalize_groups marginOfError (distinct_and_ordered hitObjectDeltas)
  hitObjectDeltas.map fun d => (d, (median_lookup sets d).getD d)

end RosuPP

namespace RosuPP

lemma normalize_group_go_join (margin : ℚ) :
    ∀ (rest curr : List ℚ), (normalize_group_go margin curr rest).flatten = curr ++ rest := by
  intro rest
  induction rest with
  | nil => intro curr; simp [normalize_group_go]
  | cons v t ih =>
    intro curr
    rw [normalize_group_go]
    by_cases h : rat_abs (v - curr.headI) ≤ margin
    · rw [if_pos h, ih]
      simp
    · rw [if_neg h]
      simp only [List.flatten_cons, ih]
      simp

lemma normalize_group_go_ne_nil (margin : ℚ) :
    ∀ (rest curr : List ℚ), normalize_group_go margin curr rest ≠ [] := by
  intro rest
  induction rest with
  | nil => intro curr; simp [normalize_group_go]
  | cons v t ih =>
    intro curr
    rw [normalize_group_go]
    by_cases h : rat_abs (v - curr.headI) ≤ margin
    · rw [if_pos h]; exact ih _
    · rw [if_neg h]; simp

lemma normalize_group_go_headI (margin : ℚ) :
    ∀ (rest curr : List ℚ), curr ≠ [] →
      ((normalize_group_go margin curr rest).headI).headI = curr.headI := by
  intro rest
  induction rest with
  | nil => intro curr _; simp [normalize_group_go]
  | cons v t ih =>
    intro curr hc
    rw [normalize_group_go]
    by_cases h : rat_abs (v - curr.headI) ≤ margin
    · rw [if_pos h]
      rw [ih (curr ++ [v]) (by simp)]
      obtain ⟨c, cs, rfl⟩ := List.exists_cons_of_ne_nil hc
      simp
    · rw [if_neg h]
      simp

lemma normalize_group_go_close (margin : ℚ) (hm : 0 ≤ margin) :
    ∀ (rest curr : List ℚ), curr ≠ [] → (∀ x ∈ curr, rat_abs (x - curr.headI) ≤ margin) →
      ∀ g ∈ normalize_group_go margin curr rest, ∀ x ∈ g, rat_abs (x - g.headI) ≤ margin := by
  intro rest
  induction rest with
  | nil =>
    intro curr _ hcurr g hg
    rw [normalize_group_go] at hg
    simp only [List.mem_singleton] at hg
    subst hg
    exact hcurr
  | cons v t ih =>
    intro curr hc hcurr g hg
    rw [normalize_group_go] at hg
    by_cases h : rat_abs (v - curr.headI) ≤ margin
    · rw [if_pos h] at hg
      refine ih (curr ++ [v]) (by simp) ?_ g hg
      intro x hx
      obtain ⟨c, cs, rfl⟩ := List.exists_cons_of_ne_nil hc
      simp only [List.cons_append, List.headI_cons]
      rcases List.mem_append.mp hx with hx' | hx'
      · exact hcurr x hx'
      · simp only [List.mem_singleton] at hx'
        subst hx'
        exact h
    · rw [if_neg h] at hg
      rcases List.mem_cons.mp hg with rfl | hg'
      · exact hcurr
      · refine ih [v] (by simp) ?_ g hg'
        intro x hx
        simp only [List.mem_singleton] at hx
        subst hx
        simpa [rat_abs] using hm

lemma normalize_group_go_chain (margin : ℚ) :
    ∀ (rest curr : List ℚ), curr ≠ [] →
      List.Chain' (fun g g' => margin < rat_abs (g'.headI - g.headI))
        (normalize_group_go margin curr rest) := by
  intro rest
  induction rest with
  | nil => intro curr _; simp [normalize_group_go]
  | cons v t ih =>
    intro curr hc
    rw [normalize_group_go]
    by_cases h : rat_abs (v - curr.headI) ≤ margin
    · rw [if_pos h]
      exact ih (curr ++ [v]) (by simp)
    · rw [if_neg h]
      rw [List.chain'_cons']
      refine ⟨?_, ih [v] (by simp)⟩
      intro g hg
      have hne := normalize_group_go_ne_nil margin t [v]
      have hhead := normalize_group_go_headI margin t [v] (by simp)
      obtain ⟨g0, gs, hgo⟩ := List.exists_cons_of_ne_nil hne
      rw [hgo] at hg hhead
      simp only [List.head?_cons, Option.mem_some_iff] at hg
      subst hg
      simp only [List.headI_cons] at hhead
      rw [hhead]
      simpa using lt_of_not_le h

lemma normalize_groups_join (margin : ℚ) (l : List ℚ) :
    (normalize_groups margin l).flatten = l := by
  cases l with
  | nil => rfl
  | cons v rest =>
    rw [normalize_groups, normalize_group_go_join]
    rfl

lemma distinct_ordered_insert_mem (v : ℚ) :
    ∀ (l : List ℚ) (y : ℚ), y ∈ distinct_ordered_insert v l ↔ y = v ∨ y ∈ l := by
  intro l
  induction l with
  | nil => intro y; simp [distinct_ordered_insert]
  | cons x xs ih =>
    intro y
    rw [distinct_ordered_insert]
    by_cases h1 : v < x
    · rw [if_pos h1]; simp [List.mem_cons]
    · rw [if_neg h1]
      by_cases h2 : v = x
      · rw [if_pos h2]
        subst h2
        simp [List.mem_cons]
      · rw [if_neg h2]
        simp only [List.mem_cons, ih]
        tauto

lemma distinct_ordered_insert_sorted (v : ℚ) :
    ∀ (l : List ℚ), List.Sorted (· < ·) l → List.Sorted (· < ·) (distinct_ordered_insert v l) := by
  intro l
  induction l with
  | nil => intro _; simp [distinct_ordered_insert]
  | cons x xs ih =>
    intro hs
    rw [List.sorted_cons] at hs
    rw [distinct_ordered_insert]
    by_cases h1 : v < x
    · rw [if_pos h1, List.sorted_cons]
      refine ⟨?_, List.sorted_cons.mpr hs⟩
      intro y hy
      rcases List.mem_cons.mp hy with rfl | hy'
      · exact h1
      · exact lt_trans h1 (hs.1 y hy')
    · rw [if_neg h1]
      by_cases h2 : v = x
      · rw [if_pos h2]
        exact List.sorted_cons.mpr hs
      · rw [if_neg h2]
        have hxv : x < v := lt_of_le_of_ne (not_lt.mp h1) (Ne.symm h2)
        rw [List.sorted_cons]
        refine ⟨?_, ih hs.2⟩
        intro y hy
        rcases (distinct_ordered_insert_mem v xs y).mp hy with rfl | hy'
        · exact hxv
        · exact hs.1 y hy'

lemma distinct_and_ordered_sorted (ds : List ℚ) :
    List.Sorted (· < ·) (distinct_and_ordered ds) := by
  suffices h : ∀ (ds acc : List ℚ), List.Sorted (· < ·) acc →
      List.Sorted (· < ·) (ds.foldl (fun acc d => distinct_ordered_insert d acc) acc) by
    exact h ds [] (by simp)
  intro ds
  induction ds with
  | nil => intro acc hacc; exact hacc
  | cons d t ih =>
    intro acc hacc
    exact ih _ (distinct_ordered_insert_sorted d acc hacc)

lemma mem_distinct_and_ordered (ds : List ℚ) (d : ℚ) (hd : d ∈ ds) :
    d ∈ distinct_and_ordered ds := by
  suffices h : ∀ (ds acc : List ℚ) (d : ℚ), d ∈ acc ∨ d ∈ ds →
      d ∈ ds.foldl (fun acc d => distinct_ordered_insert d acc) acc by
    exact h ds [] d (Or.inr hd)
  intro ds
  induction ds with
  | nil =>
    intro acc d hd
    rcases hd with h | h
    · exact h
    · simp at h
  | cons c t ih =>
    intro acc d hd
    refine ih (distinct_ordered_insert c acc) d ?_
    rcases hd with h | h
    · exact Or.inl ((distinct_ordered_insert_mem c acc d).mpr (Or.inr h))
    · rcases List.mem_cons.mp h with rfl | h'
      · exact Or.inl ((distinct_ordered_insert_mem d acc d).mpr (Or.inl rfl))
      · exact Or.inr h'

end RosuPP

namespace RosuPP

lemma median_lookup_inner (m : ℚ) :
    ∀ (g : List ℚ) (f : ℚ → Option ℚ) (v : ℚ),
      (g.foldl (fun acc2 x => Function.update acc2 x (some m)) f) v =
        if v ∈ g then some m else f v := by
  intro g
  induction g with
  | nil => intro f v; simp
  | cons x xs ih =>
    intro f v
    rw [List.foldl_cons, ih]
    by_cases hv : v ∈ xs
    · rw [if_pos hv, if_pos (List.mem_cons.mpr (Or.inr hv))]
    · rw [if_neg hv]
      by_cases hvx : v = x
      · subst hvx
        rw [if_pos (List.mem_cons.mpr (Or.inl rfl)), Function.update_same]
      · rw [if_neg (by simp [hvx, hv]), Function.update_noteq hvx]

lemma median_lookup_fold_notmem :
    ∀ (gs : List (List ℚ)) (f : ℚ → Option ℚ) (v : ℚ), (∀ g ∈ gs, v ∉ g) →
      (gs.foldl (fun acc g =>
        g.foldl (fun acc2 x => Function.update acc2 x (some (median_of_set g))) acc) f) v =
        f v := by
  intro gs
  induction gs with
  | nil => intro f v _; rfl
  | cons g rest ih =>
    intro f v hv
    rw [List.foldl_cons, ih _ v (fun g' hg' => hv g' (List.mem_cons.mpr (Or.inr hg'))),
      median_lookup_inner, if_neg (hv g (List.mem_cons.mpr (Or.inl rfl)))]

lemma median_lookup_fold_mem :
    ∀ (gs : List (List ℚ)) (f : ℚ → Option ℚ) (g : List ℚ) (v : ℚ),
      gs.flatten.Nodup → g ∈ gs → v ∈ g →
      (gs.foldl (fun acc g =>
        g.foldl (fun acc2 x => Function.update acc2 x (some (median_of_set g))) acc) f) v =
        some (median_of_set g) := by
  intro gs
  induction gs with
  | nil => intro f g v _ hg _; simp at hg
  | cons g0 rest ih =>
    intro f g v hnd hg hv
    rw [List.flatten_cons, List.nodup_append] at hnd
    rw [List.foldl_cons]
    rcases List.mem_cons.mp hg with rfl | hg'
    · rw [median_lookup_fold_notmem]
      · rw [median_lookup_inner, if_pos hv]
      · intro g' hg' hv'
        exact hnd.2.2 hv (List.mem_flatten.mpr ⟨g', hg', hv'⟩)
    · exact ih _ g v hnd.2.1 hg' hv

/-- C8 (amended): scanning the sorted distinct delta-times in order, each
value is added to the current group exactly when it is within the margin of
error of the FIRST value of the current group (not of the immediately
preceding value): the produced groups concatenate back to the sorted
distinct list, every group member is within the margin of its group's first
element, each group's first element is beyond the margin of the previous
group's first element, and each delta-time is mapped to its group's
median. -/
theorem claim_C8_amended (ds : List ℚ) (margin : ℚ) (hm : 0 ≤ margin) :
    (normalize_groups margin (distinct_and_ordered ds)).flatten = distinct_and_ordered ds ∧
    (∀ g ∈ normalize_groups margin (distinct_and_ordered ds),
      ∀ x ∈ g, rat_abs (x - g.headI) ≤ margin) ∧
    List.Chain' (fun g g' => margin < rat_abs (g'.headI - g.headI))
      (normalize_groups margin (distinct_and_ordered ds)) ∧
    (∀ q ∈ delta_time_normalize ds margin,
      ∃ g ∈ normalize_groups margin (distinct_and_ordered ds),
        q.1 ∈ g ∧ q.2 = median_of_set g) := by
  refine ⟨normalize_groups_join margin _, ?_, ?_, ?_⟩
  · cases hdo : distinct_and_ordered ds with
    | nil => simp [normalize_groups]
    | cons v rest =>
      rw [normalize_groups]
      exact normalize_group_go_close margin hm rest [v] (by simp)
        (by intro x hx; simp only [List.mem_singleton] at hx; subst hx; simpa [rat_abs] using hm)
  · cases hdo : distinct_and_ordered ds with
    | nil => simp [normalize_groups]
    | cons v rest =>
      rw [normalize_groups]
      exact normalize_group_go_chain margin rest [v] (by simp)
  · intro q hq
    rw [delta_time_normalize] at hq
    obtain ⟨d, hd, rfl⟩ := List.mem_map.mp hq
    have hdmem : d ∈ distinct_and_ordered ds := mem_distinct_and_ordered ds d hd
    have hnd : (normalize_groups margin (distinct_and_ordered ds)).flatten.Nodup := by
      rw [normalize_groups_join margin]
      exact (distinct_and_ordered_sorted ds).nodup
    have hdflat : d ∈ (normalize_groups margin (distinct_and_ordered ds)).flatten := by
      rw [normalize_groups_join margin]
      exact hdmem
    obtain ⟨g, hg, hdg⟩ := List.mem_flatten.mp hdflat
    refine ⟨g, hg, hdg, ?_⟩
    rw [median_lookup, median_lookup_fold_mem _ _ g d hnd hg hdg]
    rfl

/-- Witness for C8 at a concrete delta-time chain. -/
theorem claim_C8_witness :
    (normalize_groups 1 (distinct_and_ordered [0, 1, 2])).flatten =
        distinct_and_ordered [0, 1, 2] ∧
    (∀ g ∈ normalize_groups 1 (distinct_and_ordered [0, 1, 2]),
      ∀ x ∈ g, rat_abs (x - g.headI) ≤ 1) ∧
    List.Chain' (fun g g' => (1 : ℚ) < rat_abs (g'.headI - g.headI))
      (normalize_groups 1 (distinct_and_ordered [0, 1, 2])) ∧
    (∀ q ∈ delta_time_normalize [0, 1, 2] 1,
      ∃ g ∈ normalize_groups 1 (distinct_and_ordered [0, 1, 2]),
        q.1 ∈ g ∧ q.2 = median_of_set g) :=
  claim_C8_amended [0, 1, 2] 1 (by norm_num)

/-- Counterexample to C8 as stated: on the chain with delta-times
`0, 1, 2` and margin of error `1`, the value `2` is within the margin of
its adjacent (immediately preceding) distinct value `1`, yet the code
starts a new group at `2` (the comparison is made against the group's first
element `0`): `1` is normalized to the median `1/2` of the group `[0, 1]`
while `2` stays in its own group. -/
theorem claim_C8_counterexample :
    delta_time_normalize [0, 1, 2] 1 = [(0, 1 / 2), (1, 1 / 2), (2, 2)] ∧
      normalize_groups 1 (distinct_and_ordered [0, 1, 2]) = [[0, 1], [2]] ∧
      rat_abs ((2 : ℚ) - 1) ≤ 1 := by
  have hdo : distinct_and_ordered [0, 1, 2] = [0, 1, 2] := by
    norm_num [distinct_and_ordered, distinct_ordered_insert]
  have hgs : normalize_groups 1 (distinct_and_ordered [0, 1, 2]) = [[0, 1], [2]] := by
    rw [hdo]
    norm_num [normalize_groups, normalize_group_go, rat_abs]
  refine ⟨?_, hgs, by norm_num [rat_abs]⟩
  rw [delta_time_normalize, hgs]
  norm_num [median_lookup, median_of_set, Function.update, List.insertionSort,
    List.orderedInsert]

end RosuPP

noncomputable section

namespace RosuPP

/-! ## Osu speed evaluator (src/osu/difficulty/evaluators/speed.rs)

The difficulty objects are modelled as records carrying exactly the fields
the evaluator reads. -/

/-- The fields of `OsuDifficultyObject` (src/osu/difficulty/object.rs) read by
the speed evaluator and `get_doubletapness`: the chain index, whether the
wrapped hit object is a spinner, and the timing/distance features. -/
structure OsuDifficultyObject where
  idx : ℕ
  baseIsSpinner : Bool
  deltaTime : ℝ
  adjustedDeltaTime : ℝ
  minJumpDist : ℝ
  travelDist : ℝ
  smallCircleBonus : ℝ

/-- Rust `usize::checked_sub`. -/
def checked_sub (a b : ℕ) : Option ℕ :=
  if b ≤ a then some (a - b) else none

/-- Modelled from the spec (§3): `IDifficultyObject::previous` (the trait file
src/any/difficulty/object.rs is absent from the snapshot) is index
arithmetic into the owning chain,
`idx.checked_sub(backwards_idx + 1).and_then(|i| diff_objects.get(i))`; the
same shape is visible in `ManiaDifficultyObject::prev_in_column`. -/
def difficulty_object_previous (curIdx backwardsIdx : ℕ) (diffObjects : List α) : Option α :=
  (checked_sub curIdx (backwardsIdx + 1)).bind fun i => diffObjects.get? i

/-- Modelled from the spec (§3): `IDifficultyObject::next` fetches the object
`forwards_idx + 1` positions after the current index in the chain. -/
def difficulty_object_next (curIdx forwardsIdx : ℕ) (diffObjects : List α) : Option α :=
  diffObjects.get? (curIdx + (forwardsIdx + 1))

/-- The method `OsuDifficultyObject::get_doubletapness`
(src/osu/difficulty/object.rs).  For a spinner the hit window is zeroed; in
`f64` the division `curr_delta_time / 0.0` is `+inf`, which the following
`min 1` clamps to `1`, so the zero-hit-window case is written out as the
explicit value `1` here. -/
def get_doubletapness (curr : OsuDifficultyObject) (next : Option OsuDifficultyObject)
    (hitWindow : ℝ) : ℝ :=
  match next with
  | none => 0
  | some nxt =>
    let hw := if curr.baseIsSpinner then 0 else hitWindow
    let currDeltaTime := max curr.deltaTime 1
    let nextDeltaTime := max nxt.deltaTime 1
    let deltaDiff := |nextDeltaTime - currDeltaTime|
    let speedRatio := currDeltaTime / max currDeltaTime deltaDiff
    let windowRatio := (min (if hw = 0 then 1 else currDeltaTime / hw) 1) ^ (2 : ℝ)
    1 - speedRatio ^ (1 - windowRatio)

/-- The constant `SpeedEvaluator::SINGLE_SPACING_THRESHOLD`
(`NORMALIZED_DIAMETER as f64 * 1.25` with `NORMALIZED_DIAMETER = 100`). -/
def SINGLE_SPACING_THRESHOLD : ℝ := 100 * 1.25

/-- The constant `SpeedEvaluator::MIN_SPEED_BONUS`. -/
def MIN_SPEED_BONUS : ℝ := 200

/-- The constant `SpeedEvaluator::SPEED_BALANCING_FACTOR`. -/
def SPEED_BALANCING_FACTOR : ℝ := 40

/-- The constant `SpeedEvaluator::DIST_MULTIPLIER`. -/
def DIST_MULTIPLIER : ℝ := 0.8

/-- The function `SpeedEvaluator::evaluate_diff_of`
(src/osu/difficulty/evaluators/speed.rs): zero for spinners, otherwise a
BPM-derived speed bonus plus a capped distance bonus, scaled by
`1000 / strain_time` and by the doubletapness factor.  Note the read of the
NEXT chain object through `curr.next(0, diff_objects)` for the
doubletapness estimate. -/
def speed_evaluate_diff_of (curr : OsuDifficultyObject) (diffObjects : List OsuDifficultyObject)
    (hitWindow : ℝ) (autopilot : Bool) : ℝ :=
  if curr.baseIsSpinner then 0
  else
    let osuPrevObj := difficulty_object_previous curr.idx 0 diffObjects
    let osuNextObj := difficulty_object_next curr.idx 0 diffObjects
    let doubletapness := 1 - get_doubletapness curr osuNextObj hitWindow
    let strainTime := curr.adjustedDeltaTime /
      f64_clamp (curr.adjustedDeltaTime / hitWindow / 0.93) 0.92 1
    let speedBonus :=
      if MIN_SPEED_BONUS < milliseconds_to_bpm strainTime none then
        0.75 * ((bpm_to_milliseconds MIN_SPEED_BONUS none - strainTime) /
          SPEED_BALANCING_FACTOR) ^ (2 : ℝ)
      else 0
    let travelDist := (osuPrevObj.map OsuDifficultyObject.travelDist).getD 0
    let dist := min SINGLE_SPACING_THRESHOLD (travelDist + curr.minJumpDist)
    let distBonus := (dist / SINGLE_SPACING_THRESHOLD) ^ (3.95 : ℝ) * DIST_MULTIPLIER *
      Real.sqrt curr.smallCircleBonus
    let distBonusAp := if autopilot then 0 else distBonus
    (1 + speedBonus + distBonusAp) * 1000 / strainTime * doubletapness

end RosuPP

end

noncomputable section

namespace RosuPP

/-! ## Catch movement evaluator (src/catch/difficulty/skills/movement.rs) -/

/-- Rust `f32::signum` restricted to the values reachable here: `1.0` for
nonnegative inputs (including `+0.0`), `-1.0` for negative inputs. -/
def rust_signum (x : ℝ) : ℝ :=
  if x < 0 then -1 else 1

/-- Modelled from the spec: the `f32` instantiation of `FloatExt::eq`
(src/util/float_ext.rs is absent from the snapshot), modelled as the
absolute difference being below the `f32` machine epsilon `2⁻²³`. -/
def float32_eq (a b : ℝ) : Prop :=
  |a - b| < (2 : ℝ) ^ (-23 : ℤ)

/-- The fields of `CatchDifficultyObject` (src/catch/difficulty/object.rs)
read by the movement evaluator; `lastHyperDash`/`lastDistToHyperDash` are
the `last_object.hyper_dash`/`last_object.dist_to_hyper_dash` fields. -/
structure CatchDifficultyObject where
  idx : ℕ
  distMoved : ℝ
  exactDistMoved : ℝ
  strainTime : ℝ
  lastHyperDash : Bool
  lastDistToHyperDash : ℝ

/-- The constant `MovementEvaluator::NORMALIZED_HITOBJECT_RADIUS`. -/
def NORMALIZED_HITOBJECT_RADIUS : ℝ := 41

/-- The constant `MovementEvaluator::DIRECTION_CHANGE_BONUS`. -/
def DIRECTION_CHANGE_BONUS : ℝ := 21

/-- The function `MovementEvaluator::evaluate_diff_of`
(src/catch/difficulty/skills/movement.rs): a distance-power base term, a
direction-change bonus when consecutive movement signs differ, a base
streams bonus, an edge-dash multiplier when the previous object was close
to a hyperdash, and the buzz-slider nullifier, all divided by the weighted
strain time. -/
def movement_evaluate_diff_of (curr : CatchDifficultyObject)
    (diffObjects : List CatchDifficultyObject) (clockRate : ℝ) : ℝ :=
  let catchLastObj := difficulty_object_previous curr.idx 0 diffObjects
  let catchLastLastObj := difficulty_object_previous curr.idx 1 diffObjects
  let weightedStrainTime := curr.strainTime + 13 + 3 / clockRate
  let sqrtStrain := Real.sqrt weightedStrainTime
  let lastStrainTime := (catchLastObj.map CatchDifficultyObject.strainTime).getD 0
  let distAdditionBase := |curr.distMoved| ^ (1.3 : ℝ) / 510
  let distAdditionMoved :=
    if 0.1 < |curr.distMoved| then
      let lastDistMoved := (catchLastObj.map CatchDifficultyObject.distMoved).getD 0
      let directionBonus :=
        if 1 ≤ curr.idx ∧ 0.1 < |lastDistMoved| ∧
            rust_signum curr.distMoved ≠ rust_signum lastDistMoved then
          DIRECTION_CHANGE_BONUS / Real.sqrt (lastStrainTime + 16) *
            (min |curr.distMoved| 50 / 50) * max (min |lastDistMoved| 70 / 70) 0.38 *
            max (1 - (weightedStrainTime / 1000) ^ (3 : ℝ)) 0
        else 0
      distAdditionBase + directionBonus +
        12.5 * min |curr.distMoved| (NORMALIZED_HITOBJECT_RADIUS * 2) /
          (NORMALIZED_HITOBJECT_RADIUS * 6) / sqrtStrain
    else distAdditionBase
  let distAdditionEdge :=
    if curr.lastDistToHyperDash ≤ 20 then
      let edgeDashBonus := if ¬ curr.lastHyperDash then (5.7 : ℝ) else 0
      distAdditionMoved * (1 + edgeDashBonus * ((20 - curr.lastDistToHyperDash) / 20) *
        ((min (curr.strainTime * clockRate) 265 / 265) ^ (1.5 : ℝ)))
    else distAdditionMoved
  let lastExactDistMoved := (catchLastObj.map CatchDifficultyObject.exactDistMoved).getD 0
  let lastLastExactDistMoved :=
    (catchLastLastObj.map CatchDifficultyObject.exactDistMoved).getD 0
  let lastLastStrainTime := (catchLastLastObj.map CatchDifficultyObject.strainTime).getD 0
  let distAddition :=
    if 2 ≤ curr.idx ∧ |curr.exactDistMoved| ≤ NORMALIZED_HITOBJECT_RADIUS * 2 ∧
        float32_eq curr.exactDistMoved (-lastExactDistMoved) ∧
        float32_eq lastExactDistMoved (-lastLastExactDistMoved) ∧
        float_ext_eq curr.strainTime lastStrainTime ∧
        float_ext_eq lastStrainTime lastLastStrainTime then (0 : ℝ)
    else distAdditionEdge
  distAddition / weightedStrainTime

/-! ## Mania strain skill (src/mania/difficulty/skills/strain.rs) -/

/-- The fields of `ManiaDifficultyObject` (src/mania/difficulty/object.rs)
read by the strain skill and its evaluators; `prevHitObjects` is the
per-column snapshot of the most recent previous object per column. -/
inductive ManiaDifficultyObject where
  | mk (startTime endTime deltaTime columnStrainTime : ℝ) (column : ℕ)
      (prevHitObjects : List (Option ManiaDifficultyObject))

/-- Field accessor for `ManiaDifficultyObject.start_time`. -/
def ManiaDifficultyObject.startTime : ManiaDifficultyObject → ℝ
  | .mk s _ _ _ _ _ => s

/-- Field accessor for `ManiaDifficultyObject.end_time`. -/
def ManiaDifficultyObject.endTime : ManiaDifficultyObject → ℝ
  | .mk _ e _ _ _ _ => e

/-- Field accessor for `ManiaDifficultyObject.delta_time`. -/
def ManiaDifficultyObject.deltaTime : ManiaDifficultyObject → ℝ
  | .mk _ _ d _ _ _ => d

/-- Field accessor for `ManiaDifficultyObject.column_strain_time`. -/
def ManiaDifficultyObject.columnStrainTime : ManiaDifficultyObject → ℝ
  | .mk _ _ _ c _ _ => c

/-- Field accessor for `ManiaDifficultyObject.column`. -/
def ManiaDifficultyObject.column : ManiaDifficultyObject → ℕ
  | .mk _ _ _ _ c _ => c

/-- Field accessor for `ManiaDifficultyObject.prev_hit_objects`. -/
def ManiaDifficultyObject.prevHitObjects :
    ManiaDifficultyObject → List (Option ManiaDifficultyObject)
  | .mk _ _ _ _ _ p => p

/-- The function `IndividualStrainEvaluator::evaluate_diff_of`
(src/mania/difficulty/evaluators/individual.rs): `2.0` scaled by the hold
factor `1.25` when some held previous note fully covers the current one. -/
def individual_strain_evaluate_diff_of (curr : ManiaDifficultyObject) : ℝ :=
  let withBonus := ∃ maniaPrev ∈ curr.prevHitObjects.reduceOption,
    curr.endTime + 1 < maniaPrev.endTime ∧ maniaPrev.startTime + 1 < curr.startTime
  let holdFactor := if withBonus then (1.25 : ℝ) else 1
  2 * holdFactor

/-- The constant `OverallStrainEvaluator::RELEASE_THRESHOLD`. -/
def RELEASE_THRESHOLD : ℝ := 30

/-- The function `OverallStrainEvaluator::evaluate_diff_of`
(src/mania/difficulty/evaluators/overall.rs): `(1 + hold_addition) *
hold_factor` where the hold addition is a logistic of the closest release
distance when the current note body is overlapped. -/
def overall_strain_evaluate_diff_of (curr : ManiaDifficultyObject) : ℝ :=
  let prevs := curr.prevHitObjects.reduceOption
  let isOverlapping := ∃ maniaPrev ∈ prevs,
    curr.startTime + 1 < maniaPrev.endTime ∧ maniaPrev.endTime + 1 < curr.endTime ∧
      maniaPrev.startTime + 1 < curr.startTime
  let holdFactor := if ∃ maniaPrev ∈ prevs,
      curr.endTime + 1 < maniaPrev.endTime ∧ maniaPrev.startTime + 1 < curr.startTime then
    (1.25 : ℝ) else 1
  let closestEndTime := prevs.foldl (fun acc maniaPrev => min acc |curr.endTime - maniaPrev.endTime|)
    |curr.endTime - curr.startTime|
  let holdAddition := if isOverlapping then logistic closestEndTime RELEASE_THRESHOLD 0.27 none
    else 0
  (1 + holdAddition) * holdFactor

/-- The function `apply_decay` (src/mania/difficulty/skills/strain.rs):
`value * decay_base.powf(delta_time / 1000.0)`. -/
def apply_decay (value deltaTime decayBase : ℝ) : ℝ :=
  value * decayBase ^ (deltaTime / 1000)

/-- The constant `Strain::INDIVIDUAL_DECAY_BASE`. -/
def INDIVIDUAL_DECAY_BASE : ℝ := 0.125

/-- The constant `Strain::OVERALL_DECAY_BASE`. -/
def OVERALL_DECAY_BASE : ℝ := 0.3

/-- The mutable state of the mania `Strain` skill
(src/mania/difficulty/skills/strain.rs): the per-column individual strains
(modelled as a total function on column indices), the highest individual
strain, the overall strain (initialised to `1.0`), and the running strain
of the surrounding `StrainDecaySkill` accumulator. -/
structure ManiaStrainState where
  individualStrains : ℕ → ℝ
  highestIndividualStrain : ℝ
  overallStrain : ℝ
  currentStrain : ℝ

/-- The initial mania strain state: zeroed individual strains
(`vec![0.0; total_columns]`), zero highest strain, overall strain `1.0`,
zero running strain. -/
def mania_initial_state : ManiaStrainState :=
  { individualStrains := fun _ => 0
    highestIndividualStrain := 0
    overallStrain := 1
    currentStrain := 0 }

/-- The method `Strain::strain_value_of`
(src/mania/difficulty/skills/strain.rs): decays and bumps the current
column's individual strain, tracks the highest individual strain within a
chord, decays and bumps the overall strain, and returns
`highest_individual_strain + overall_strain - current_strain` (the running
strain of the surrounding accumulator is subtracted). -/
def mania_strain_value_of (st : ManiaStrainState) (curr : ManiaDifficultyObject) :
    ℝ × ManiaStrainState :=
  let decayedIndividual := apply_decay (st.individualStrains curr.column) curr.columnStrainTime
    INDIVIDUAL_DECAY_BASE
  let individual := decayedIndividual + individual_strain_evaluate_diff_of curr
  let individualStrains := Function.update st.individualStrains curr.column individual
  let highestIndividualStrain :=
    if curr.deltaTime ≤ 1 then max st.highestIndividualStrain individual else individual
  let overallStrain := apply_decay st.overallStrain curr.deltaTime OVERALL_DECAY_BASE +
    overall_strain_evaluate_diff_of curr
  (highestIndividualStrain + overallStrain - st.currentStrain,
    { st with
      individualStrains := individualStrains
      highestIndividualStrain := highestIndividualStrain
      overallStrain := overallStrain })

/-- Modelled from the spec (§4.3): the surrounding `StrainDecaySkill::process`
step (the generic skill module src/any/difficulty/skills is absent from the
snapshot) decays the running strain by `decay_base ^ (delta_time / 1000)`
and adds `strain_value_of(..) * SKILL_MULTIPLIER`; mania uses
`STRAIN_DECAY_BASE = 1.0` and `SKILL_MULTIPLIER = 1.0`. -/
def mania_process (st : ManiaStrainState) (curr : ManiaDifficultyObject) :
    ℝ × ManiaStrainState :=
  let r := mania_strain_value_of st curr
  let currentStrain := apply_decay r.2.currentStrain curr.deltaTime 1 + r.1 * 1
  (r.1, { r.2 with currentStrain := currentStrain })

end RosuPP

end

noncomputable section

namespace RosuPP

lemma difficulty_object_previous_mem (i n : ℕ) (l : List α) (x : α)
    (h : difficulty_object_previous i n l = some x) : x ∈ l := by
  rw [difficulty_object_previous, checked_sub] at h
  by_cases hle : n + 1 ≤ i
  · rw [if_pos hle] at h
    simp only [Option.bind_some, Option.some_bind] at h
    exact List.get?_mem h
  · rw [if_neg hle] at h
    simp at h

lemma one_sub_get_doubletapness_nonneg (curr : OsuDifficultyObject)
    (next : Option OsuDifficultyObject) (hitWindow : ℝ) :
    0 ≤ 1 - get_doubletapness curr next hitWindow := by
  have key : ∀ sr e : ℝ, 0 ≤ sr → 0 ≤ 1 - (1 - sr ^ e) := by
    intro sr e h
    have := Real.rpow_nonneg h e
    linarith
  cases next with
  | none => simp [get_doubletapness]
  | some nxt =>
    simp only [get_doubletapness]
    apply key
    refine div_nonneg (le_trans zero_le_one (le_max_right _ _)) ?_
    exact le_trans (le_trans zero_le_one (le_max_right _ _)) (le_max_left _ _)

lemma speed_evaluate_nonneg (curr : OsuDifficultyObject)
    (diffObjects : List OsuDifficultyObject) (hitWindow : ℝ) (autopilot : Bool)
    (hhw : 0 < hitWindow) (hadt : 25 ≤ curr.adjustedDeltaTime) (hmj : 0 ≤ curr.minJumpDist)
    (hscb : 0 ≤ curr.smallCircleBonus) (htravel : ∀ o ∈ diffObjects, 0 ≤ o.travelDist) :
    0 ≤ speed_evaluate_diff_of curr diffObjects hitWindow autopilot := by
  by_cases hsp : curr.baseIsSpinner
  · simp [speed_evaluate_diff_of, hsp]
  · simp only [speed_evaluate_diff_of, hsp, Bool.false_eq_true, if_false]
    have hclamp : (0.92 : ℝ) ≤ f64_clamp (curr.adjustedDeltaTime / hitWindow / 0.93) 0.92 1 := by
      rw [f64_clamp]
      exact le_min (by norm_num) (le_max_left _ _)
    have hst : 0 < curr.adjustedDeltaTime /
        f64_clamp (curr.adjustedDeltaTime / hitWindow / 0.93) 0.92 1 :=
      div_pos (by linarith) (by linarith)
    have hsb : 0 ≤ (if MIN_SPEED_BONUS < milliseconds_to_bpm (curr.adjustedDeltaTime /
        f64_clamp (curr.adjustedDeltaTime / hitWindow / 0.93) 0.92 1) none then
          0.75 * ((bpm_to_milliseconds MIN_SPEED_BONUS none - curr.adjustedDeltaTime /
            f64_clamp (curr.adjustedDeltaTime / hitWindow / 0.93) 0.92 1) /
            SPEED_BALANCING_FACTOR) ^ (2 : ℝ)
        else 0) := by
      set st := curr.adjustedDeltaTime /
        f64_clamp (curr.adjustedDeltaTime / hitWindow / 0.93) 0.92 1 with hstdef
      by_cases hb : MIN_SPEED_BONUS < milliseconds_to_bpm st none
      · rw [if_pos hb]
        rw [milliseconds_to_bpm, MIN_SPEED_BONUS] at hb
        have hcast : ((Option.getD (none : Option ℤ) 4 : ℤ) : ℝ) = 4 := by norm_num
        rw [hcast] at hb
        have hst4 : (0 : ℝ) < st * 4 := by positivity
        have hlt : st < 75 := by
          have := (lt_div_iff₀ hst4).mp hb
          linarith
        have hbase : (0 : ℝ) ≤ (bpm_to_milliseconds MIN_SPEED_BONUS none - st) /
            SPEED_BALANCING_FACTOR := by
          rw [bpm_to_milliseconds, MIN_SPEED_BONUS, SPEED_BALANCING_FACTOR]
          have : ((Option.getD (none : Option ℤ) 4 : ℤ) : ℝ) = 4 := by norm_num
          rw [this]
          have h75 : (60000 : ℝ) / 4 / 200 = 75 := by norm_num
          rw [h75]
          have : (0 : ℝ) ≤ 75 - st := by linarith
          positivity
        positivity
      · rw [if_neg hb]
    have htd : 0 ≤ ((difficulty_object_previous curr.idx 0 diffObjects).map
        OsuDifficultyObject.travelDist).getD 0 := by
      cases ho : difficulty_object_previous curr.idx 0 diffObjects with
      | none => exact le_refl 0
      | some o =>
        exact htravel o (difficulty_object_previous_mem _ _ _ _ ho)
    have hdist : (0 : ℝ) ≤ min SINGLE_SPACING_THRESHOLD
        (((difficulty_object_previous curr.idx 0 diffObjects).map
          OsuDifficultyObject.travelDist).getD 0 + curr.minJumpDist) := by
      refine le_min ?_ (by linarith)
      rw [SINGLE_SPACING_THRESHOLD]
      norm_num
    have hdb : 0 ≤ (min SINGLE_SPACING_THRESHOLD
        (((difficulty_object_previous curr.idx 0 diffObjects).map
          OsuDifficultyObject.travelDist).getD 0 + curr.minJumpDist) /
          SINGLE_SPACING_THRESHOLD) ^ (3.95 : ℝ) * DIST_MULTIPLIER *
        Real.sqrt curr.smallCircleBonus := by
      refine mul_nonneg (mul_nonneg ?_ ?_) (Real.sqrt_nonneg _)
      · refine Real.rpow_nonneg ?_ _
        refine div_nonneg hdist ?_
        rw [SINGLE_SPACING_THRESHOLD]
        norm_num
      · rw [DIST_MULTIPLIER]
        norm_num
    have hdba : 0 ≤ (if autopilot then (0 : ℝ) else (min SINGLE_SPACING_THRESHOLD
        (((difficulty_object_previous curr.idx 0 diffObjects).map
          OsuDifficultyObject.travelDist).getD 0 + curr.minJumpDist) /
          SINGLE_SPACING_THRESHOLD) ^ (3.95 : ℝ) * DIST_MULTIPLIER *
        Real.sqrt curr.smallCircleBonus) := by
      by_cases hap : autopilot
      · rw [if_pos hap]
      · rw [if_neg hap]
        exact hdb
    refine mul_nonneg (div_nonneg (mul_nonneg ?_ (by norm_num)) hst.le)
      (one_sub_get_doubletapness_nonneg curr _ hitWindow)
    linarith

end RosuPP

end

noncomputable section

namespace RosuPP

lemma movement_evaluate_nonneg (curr : CatchDifficultyObject)
    (diffObjects : List CatchDifficultyObject) (clockRate : ℝ) (hcr : 0 < clockRate)
    (hstc : 0 ≤ curr.strainTime) (hsts : ∀ o ∈ diffObjects, 0 ≤ o.strainTime) :
    0 ≤ movement_evaluate_diff_of curr diffObjects clockRate := by
  rw [movement_evaluate_diff_of]
  have hw : 0 < curr.strainTime + 13 + 3 / clockRate := by positivity
  have hlast : 0 ≤ ((difficulty_object_previous curr.idx 0 diffObjects).map
      CatchDifficultyObject.strainTime).getD 0 := by
    cases ho : difficulty_object_previous curr.idx 0 diffObjects with
    | none => exact le_refl 0
    | some o => exact hsts o (difficulty_object_previous_mem _ _ _ _ ho)
  set lastStrainTime := ((difficulty_object_previous curr.idx 0 diffObjects).map
      CatchDifficultyObject.strainTime).getD 0 with hlstdef
  have hbase : (0 : ℝ) ≤ |curr.distMoved| ^ (1.3 : ℝ) / 510 :=
    div_nonneg (Real.rpow_nonneg (abs_nonneg _) _) (by norm_num)
  have hmoved : (0 : ℝ) ≤
      (if 0.1 < |curr.distMoved| then
        (let lastDistMoved := ((difficulty_object_previous curr.idx 0 diffObjects).map
          CatchDifficultyObject.distMoved).getD 0
        (let directionBonus := if 1 ≤ curr.idx ∧ 0.1 < |lastDistMoved| ∧
              rust_signum curr.distMoved ≠ rust_signum lastDistMoved then
            DIRECTION_CHANGE_BONUS / Real.sqrt (lastStrainTime + 16) *
              (min |curr.distMoved| 50 / 50) * max (min |lastDistMoved| 70 / 70) 0.38 *
              max (1 - ((curr.strainTime + 13 + 3 / clockRate) / 1000) ^ (3 : ℝ)) 0
          else 0
        |curr.distMoved| ^ (1.3 : ℝ) / 510 + directionBonus +
          12.5 * min |curr.distMoved| (NORMALIZED_HITOBJECT_RADIUS * 2) /
            (NORMALIZED_HITOBJECT_RADIUS * 6) / Real.sqrt (curr.strainTime + 13 + 3 / clockRate)))
      else |curr.distMoved| ^ (1.3 : ℝ) / 510) := by
    by_cases hmv : 0.1 < |curr.distMoved|
    · rw [if_pos hmv]
      set lastDistMoved := ((difficulty_object_previous curr.idx 0 diffObjects).map
        CatchDifficultyObject.distMoved).getD 0 with hldmdef
      have hdir : (0 : ℝ) ≤ (if 1 ≤ curr.idx ∧ 0.1 < |lastDistMoved| ∧
            rust_signum curr.distMoved ≠ rust_signum lastDistMoved then
          DIRECTION_CHANGE_BONUS / Real.sqrt (lastStrainTime + 16) *
            (min |curr.distMoved| 50 / 50) * max (min |lastDistMoved| 70 / 70) 0.38 *
            max (1 - ((curr.strainTime + 13 + 3 / clockRate) / 1000) ^ (3 : ℝ)) 0
        else 0) := by
        by_cases hd : 1 ≤ curr.idx ∧ 0.1 < |lastDistMoved| ∧
            rust_signum curr.distMoved ≠ rust_signum lastDistMoved
        · rw [if_pos hd]
          refine mul_nonneg (mul_nonneg (mul_nonneg ?_ ?_) ?_) ?_
          · refine div_nonneg ?_ (Real.sqrt_nonneg _)
            rw [DIRECTION_CHANGE_BONUS]
            norm_num
          · exact div_nonneg (le_min (abs_nonneg _) (by norm_num)) (by norm_num)
          · exact le_trans (by norm_num) (le_max_right _ _)
          · exact le_max_right _ _
        · rw [if_neg hd]
      have hstream : (0 : ℝ) ≤ 12.5 * min |curr.distMoved| (NORMALIZED_HITOBJECT_RADIUS * 2) /
          (NORMALIZED_HITOBJECT_RADIUS * 6) / Real.sqrt (curr.strainTime + 13 + 3 / clockRate) := by
        refine div_nonneg (div_nonneg (mul_nonneg (by norm_num) ?_) ?_) (Real.sqrt_nonneg _)
        · exact le_min (abs_nonneg _) (by rw [NORMALIZED_HITOBJECT_RADIUS]; norm_num)
        · rw [NORMALIZED_HITOBJECT_RADIUS]; norm_num
      linarith
    · rw [if_neg hmv]
      exact hbase
  set distAdditionMoved := (if 0.1 < |curr.distMoved| then
      (let lastDistMoved := ((difficulty_object_previous curr.idx 0 diffObjects).map
        CatchDifficultyObject.distMoved).getD 0
      (let directionBonus := if 1 ≤ curr.idx ∧ 0.1 < |lastDistMoved| ∧
            rust_signum curr.distMoved ≠ rust_signum lastDistMoved then
          DIRECTION_CHANGE_BONUS / Real.sqrt (lastStrainTime + 16) *
            (min |curr.distMoved| 50 / 50) * max (min |lastDistMoved| 70 / 70) 0.38 *
            max (1 - ((curr.strainTime + 13 + 3 / clockRate) / 1000) ^ (3 : ℝ)) 0
        else 0
      |curr.distMoved| ^ (1.3 : ℝ) / 510 + directionBonus +
        12.5 * min |curr.distMoved| (NORMALIZED_HITOBJECT_RADIUS * 2) /
          (NORMALIZED_HITOBJECT_RADIUS * 6) / Real.sqrt (curr.strainTime + 13 + 3 / clockRate)))
    else |curr.distMoved| ^ (1.3 : ℝ) / 510) with hdamdef
  have hedge : (0 : ℝ) ≤ (if curr.lastDistToHyperDash ≤ 20 then
      (let edgeDashBonus := if ¬ curr.lastHyperDash then (5.7 : ℝ) else 0
      distAdditionMoved * (1 + edgeDashBonus * ((20 - curr.lastDistToHyperDash) / 20) *
        ((min (curr.strainTime * clockRate) 265 / 265) ^ (1.5 : ℝ))))
    else distAdditionMoved) := by
    by_cases he : curr.lastDistToHyperDash ≤ 20
    · rw [if_pos he]
      have hbonus : (0 : ℝ) ≤ (if ¬ curr.lastHyperDash then (5.7 : ℝ) else 0) := by
        split
        · norm_num
        · norm_num
      refine mul_nonneg hmoved ?_
      have hpow : (0 : ℝ) ≤ (min (curr.strainTime * clockRate) 265 / 265) ^ (1.5 : ℝ) := by
        refine Real.rpow_nonneg ?_ _
        refine div_nonneg ?_ (by norm_num)
        exact le_min (by positivity) (by norm_num)
      have hfac : (0 : ℝ) ≤ (20 - curr.lastDistToHyperDash) / 20 := by
        refine div_nonneg ?_ (by norm_num)
        linarith
      positivity
    · rw [if_neg he]
      exact hmoved
  refine div_nonneg ?_ hw.le
  split
  · exact le_refl 0
  · exact hedge

lemma mania_overall_evaluate_nonneg (curr : ManiaDifficultyObject) :
    0 ≤ overall_strain_evaluate_diff_of curr := by
  rw [overall_strain_evaluate_diff_of]
  have hadd : (0 : ℝ) ≤ (if ∃ maniaPrev ∈ curr.prevHitObjects.reduceOption,
      curr.startTime + 1 < maniaPrev.endTime ∧ maniaPrev.endTime + 1 < curr.endTime ∧
        maniaPrev.startTime + 1 < curr.startTime then
      logistic (curr.prevHitObjects.reduceOption.foldl
        (fun acc maniaPrev => min acc |curr.endTime - maniaPrev.endTime|)
        |curr.endTime - curr.startTime|) RELEASE_THRESHOLD 0.27 none
    else 0) := by
    split
    · rw [logistic]
      have := Real.exp_pos (0.27 * (RELEASE_THRESHOLD - curr.prevHitObjects.reduceOption.foldl
        (fun acc maniaPrev => min acc |curr.endTime - maniaPrev.endTime|)
        |curr.endTime - curr.startTime|))
      refine div_nonneg (by norm_num) (by linarith)
    · exact le_refl 0
  have hfac : (0 : ℝ) ≤ (if ∃ maniaPrev ∈ curr.prevHitObjects.reduceOption,
      curr.endTime + 1 < maniaPrev.endTime ∧ maniaPrev.startTime + 1 < curr.startTime then
      (1.25 : ℝ) else 1) := by
    split
    · norm_num
    · norm_num
  exact mul_nonneg (by linarith) hfac

lemma mania_individual_evaluate_nonneg (curr : ManiaDifficultyObject) :
    0 ≤ individual_strain_evaluate_diff_of curr := by
  rw [individual_strain_evaluate_diff_of]
  split
  · norm_num
  · norm_num

lemma mania_process_current_strain_nonneg (st : ManiaStrainState) (curr : ManiaDifficultyObject)
    (hind : ∀ c, 0 ≤ st.individualStrains c) (hhigh : 0 ≤ st.highestIndividualStrain)
    (hover : 0 ≤ st.overallStrain) :
    0 ≤ (mania_process st curr).2.currentStrain := by
  rw [mania_process, mania_strain_value_of]
  simp only []
  have hdec1 : 0 ≤ apply_decay (st.individualStrains curr.column) curr.columnStrainTime
      INDIVIDUAL_DECAY_BASE := by
    rw [apply_decay, INDIVIDUAL_DECAY_BASE]
    exact mul_nonneg (hind _) (Real.rpow_nonneg (by norm_num) _)
  have hindiv : 0 ≤ apply_decay (st.individualStrains curr.column) curr.columnStrainTime
      INDIVIDUAL_DECAY_BASE + individual_strain_evaluate_diff_of curr := by
    have := mania_individual_evaluate_nonneg curr
    linarith
  have hhigh2 : 0 ≤ (if curr.deltaTime ≤ 1 then
      max st.highestIndividualStrain (apply_decay (st.individualStrains curr.column)
        curr.columnStrainTime INDIVIDUAL_DECAY_BASE + individual_strain_evaluate_diff_of curr)
    else apply_decay (st.individualStrains curr.column) curr.columnStrainTime
      INDIVIDUAL_DECAY_BASE + individual_strain_evaluate_diff_of curr) := by
    split
    · exact le_trans hhigh (le_max_left _ _)
    · exact hindiv
  have hover2 : 0 ≤ apply_decay st.overallStrain curr.deltaTime OVERALL_DECAY_BASE +
      overall_strain_evaluate_diff_of curr := by
    have h1 : 0 ≤ apply_decay st.overallStrain curr.deltaTime OVERALL_DECAY_BASE := by
      rw [apply_decay, OVERALL_DECAY_BASE]
      exact mul_nonneg hover (Real.rpow_nonneg (by norm_num) _)
    have h2 := mania_overall_evaluate_nonneg curr
    linarith
  rw [apply_decay, Real.one_rpow]
  ring_nf
  nlinarith [hhigh2, hover2]

end RosuPP

end

noncomputable section

namespace RosuPP

/-- C3 (amended): the osu speed evaluator and the catch movement evaluator
return nonnegative values for all in-range inputs, and the mania strain
skill's accumulated running strain stays nonnegative; however, the value
RETURNED by mania's `Strain::strain_value_of` is the increment relative to
the running accumulator (`highest + overall - current_strain`) and can be
negative (see the counterexample). -/
theorem claim_C3_amended :
    (∀ (curr : OsuDifficultyObject) (diffObjects : List OsuDifficultyObject)
        (hitWindow : ℝ) (autopilot : Bool), 0 < hitWindow → 25 ≤ curr.adjustedDeltaTime →
        0 ≤ curr.minJumpDist → 0 ≤ curr.smallCircleBonus →
        (∀ o ∈ diffObjects, 0 ≤ o.travelDist) →
        0 ≤ speed_evaluate_diff_of curr diffObjects hitWindow autopilot) ∧
    (∀ (curr : CatchDifficultyObject) (diffObjects : List CatchDifficultyObject)
        (clockRate : ℝ), 0 < clockRate → 0 ≤ curr.strainTime →
        (∀ o ∈ diffObjects, 0 ≤ o.strainTime) →
        0 ≤ movement_evaluate_diff_of curr diffObjects clockRate) ∧
    (∀ (st : ManiaStrainState) (curr : ManiaDifficultyObject),
        (∀ c, 0 ≤ st.individualStrains c) → 0 ≤ st.highestIndividualStrain →
        0 ≤ st.overallStrain → 0 ≤ (mania_process st curr).2.currentStrain) :=
  ⟨fun curr diffObjects hitWindow autopilot hhw hadt hmj hscb htravel =>
      speed_evaluate_nonneg curr diffObjects hitWindow autopilot hhw hadt hmj hscb htravel,
    fun curr diffObjects clockRate hcr hstc hsts =>
      movement_evaluate_nonneg curr diffObjects clockRate hcr hstc hsts,
    fun st curr hind hhigh hover =>
      mania_process_current_strain_nonneg st curr hind hhigh hover⟩

/-- Witness for C3 at concrete in-range inputs for all three skills. -/
theorem claim_C3_witness :
    0 ≤ speed_evaluate_diff_of ⟨1, false, 80, 80, 0, 0, 1⟩ [] 200 false ∧
    0 ≤ movement_evaluate_diff_of ⟨0, 0, 0, 40, false, 100⟩ [] 1 ∧
    0 ≤ (mania_process mania_initial_state (.mk 1000 1000 1000 0 0 [])).2.currentStrain :=
  ⟨claim_C3_amended.1 ⟨1, false, 80, 80, 0, 0, 1⟩ [] 200 false (by norm_num) (by norm_num)
      (by norm_num) (by norm_num) (by intro o ho; simp at ho),
    claim_C3_amended.2.1 ⟨0, 0, 0, 40, false, 100⟩ [] 1 (by norm_num) (by norm_num)
      (by intro o ho; simp at ho),
    claim_C3_amended.2.2 mania_initial_state (.mk 1000 1000 1000 0 0 [])
      (fun _ => le_refl 0) (le_refl 0) (by norm_num [mania_initial_state])⟩

end RosuPP

end

noncomputable section

namespace RosuPP

/-- Counterexample to C3 as stated: on a valid single-column mania chain
(rice notes at 0 ms, 1000 ms and 3000 ms, giving the two difficulty
objects below), the second call to `Strain::strain_value_of` returns
`2 + 1/32 + 1 + (13/10) * (9/100) - 33/10 = -607/4000 < 0`: the decayed
individual and overall strains no longer cover the subtracted running
strain of the accumulator. -/
theorem claim_C3_counterexample :
    (mania_strain_value_of
        (mania_process mania_initial_state (.mk 1000 1000 1000 0 0 [])).2
        (.mk 3000 3000 2000 2000 0 [some (.mk 1000 1000 1000 0 0 [])])).1 < 0 := by
  have hiv1 : individual_strain_evaluate_diff_of (.mk 1000 1000 1000 0 0 []) = 2 := by
    rw [individual_strain_evaluate_diff_of]
    norm_num [ManiaDifficultyObject.prevHitObjects, List.reduceOption]
  have hov1 : overall_strain_evaluate_diff_of (.mk 1000 1000 1000 0 0 []) = 1 := by
    rw [overall_strain_evaluate_diff_of]
    norm_num [ManiaDifficultyObject.prevHitObjects, List.reduceOption]
  have hiv2 : individual_strain_evaluate_diff_of
      (.mk 3000 3000 2000 2000 0 [some (.mk 1000 1000 1000 0 0 [])]) = 2 := by
    rw [individual_strain_evaluate_diff_of]
    norm_num [ManiaDifficultyObject.prevHitObjects, List.reduceOption,
      ManiaDifficultyObject.startTime, ManiaDifficultyObject.endTime]
  have hov2 : overall_strain_evaluate_diff_of
      (.mk 3000 3000 2000 2000 0 [some (.mk 1000 1000 1000 0 0 [])]) = 1 := by
    rw [overall_strain_evaluate_diff_of]
    norm_num [ManiaDifficultyObject.prevHitObjects, List.reduceOption,
      ManiaDifficultyObject.startTime, ManiaDifficultyObject.endTime]
  have r1 : (0.3 : ℝ) ^ ((1000 : ℝ) / 1000) = 0.3 := by
    rw [show ((1000 : ℝ) / 1000) = 1 by norm_num, Real.rpow_one]
  have r2 : (0.125 : ℝ) ^ ((2000 : ℝ) / 1000) = 1 / 64 := by
    rw [show ((2000 : ℝ) / 1000) = ((2 : ℕ) : ℝ) by norm_num, Real.rpow_natCast]
    norm_num
  have r3 : (0.3 : ℝ) ^ ((2000 : ℝ) / 1000) = 9 / 100 := by
    rw [show ((2000 : ℝ) / 1000) = ((2 : ℕ) : ℝ) by norm_num, Real.rpow_natCast]
    norm_num
  rw [mania_process, mania_strain_value_of, mania_strain_value_of]
  simp only [mania_initial_state, apply_decay, INDIVIDUAL_DECAY_BASE, OVERALL_DECAY_BASE,
    ManiaDifficultyObject.deltaTime, ManiaDifficultyObject.columnStrainTime,
    ManiaDifficultyObject.column, hiv1, hov1, hiv2, hov2, Real.one_rpow,
    Function.update_same, zero_mul, one_mul, mul_one, zero_add]
  rw [r1, r2, r3]
  norm_num

end RosuPP

end

noncomputable section

namespace RosuPP

/-- C5 (amended): the osu speed evaluator is a pure function of the current
difficulty object, the immediately preceding chain object, and the
immediately FOLLOWING chain object (read through `curr.next(0, ..)` for the
doubletapness estimate): two chains that agree on that window yield the
same output, and the evaluator cannot mutate the chain (it is a function of
it). -/
theorem claim_C5_amended (curr : OsuDifficultyObject)
    (chainA chainB : List OsuDifficultyObject) (hitWindow : ℝ) (autopilot : Bool)
    (hprev : difficulty_object_previous curr.idx 0 chainA =
      difficulty_object_previous curr.idx 0 chainB)
    (hnext : difficulty_object_next curr.idx 0 chainA =
      difficulty_object_next curr.idx 0 chainB) :
    speed_evaluate_diff_of curr chainA hitWindow autopilot =
      speed_evaluate_diff_of curr chainB hitWindow autopilot := by
  rw [speed_evaluate_diff_of, speed_evaluate_diff_of, hprev, hnext]

/-- Witness for C5: two concrete chains that agree on the three-object window
around the current object (the longer one has an extra far-away object)
give the same speed evaluator output. -/
theorem claim_C5_witness :
    speed_evaluate_diff_of ⟨1, false, 80, 80, 0, 0, 1⟩
        [⟨0, false, 80, 80, 0, 0, 1⟩, ⟨1, false, 80, 80, 0, 0, 1⟩, ⟨2, false, 80, 80, 0, 0, 1⟩]
        200 false =
      speed_evaluate_diff_of ⟨1, false, 80, 80, 0, 0, 1⟩
        [⟨0, false, 80, 80, 0, 0, 1⟩, ⟨1, false, 80, 80, 0, 0, 1⟩, ⟨2, false, 80, 80, 0, 0, 1⟩,
          ⟨3, false, 5000, 5000, 0, 0, 1⟩]
        200 false :=
  claim_C5_amended ⟨1, false, 80, 80, 0, 0, 1⟩ _ _ 200 false rfl rfl

end RosuPP

end

noncomputable section

namespace RosuPP

/-- Counterexample to C5 as stated: two chains that agree on the current
object and on the ENTIRE backward window (their first two objects, indices
0 and 1, coincide) but differ in the object AFTER the current one give
different speed evaluator outputs (`23/2` versus
`23/2 * (1/2)^(21/25) < 23/2`), because the evaluator reads the next
object's delta-time for the doubletapness estimate. -/
theorem claim_C5_counterexample :
    ([(⟨0, false, 80, 80, 0, 0, 1⟩ : OsuDifficultyObject), ⟨1, false, 80, 80, 0, 0, 1⟩,
        ⟨2, false, 80, 80, 0, 0, 1⟩].take 2 =
      [(⟨0, false, 80, 80, 0, 0, 1⟩ : OsuDifficultyObject), ⟨1, false, 80, 80, 0, 0, 1⟩,
        ⟨2, false, 240, 80, 0, 0, 1⟩].take 2) ∧
    speed_evaluate_diff_of ⟨1, false, 80, 80, 0, 0, 1⟩
        [⟨0, false, 80, 80, 0, 0, 1⟩, ⟨1, false, 80, 80, 0, 0, 1⟩, ⟨2, false, 80, 80, 0, 0, 1⟩]
        200 false ≠
      speed_evaluate_diff_of ⟨1, false, 80, 80, 0, 0, 1⟩
        [⟨0, false, 80, 80, 0, 0, 1⟩, ⟨1, false, 80, 80, 0, 0, 1⟩, ⟨2, false, 240, 80, 0, 0, 1⟩]
        200 false := by
  constructor
  · rfl
  · have hA : speed_evaluate_diff_of ⟨1, false, 80, 80, 0, 0, 1⟩
        [⟨0, false, 80, 80, 0, 0, 1⟩, ⟨1, false, 80, 80, 0, 0, 1⟩, ⟨2, false, 80, 80, 0, 0, 1⟩]
        200 false = 23 / 2 := by
      rw [speed_evaluate_diff_of]
      norm_num [difficulty_object_previous, difficulty_object_next, checked_sub,
        get_doubletapness, f64_clamp, milliseconds_to_bpm, bpm_to_milliseconds,
        MIN_SPEED_BONUS, SPEED_BALANCING_FACTOR, SINGLE_SPACING_THRESHOLD, DIST_MULTIPLIER,
        min_def, max_def, Real.one_rpow, Real.sqrt_one,
        Real.zero_rpow (by norm_num : (3.95 : ℝ) ≠ 0)]
    have hB : speed_evaluate_diff_of ⟨1, false, 80, 80, 0, 0, 1⟩
        [⟨0, false, 80, 80, 0, 0, 1⟩, ⟨1, false, 80, 80, 0, 0, 1⟩, ⟨2, false, 240, 80, 0, 0, 1⟩]
        200 false = 23 / 2 * (1 / 2 : ℝ) ^ ((21 : ℝ) / 25) := by
      rw [speed_evaluate_diff_of]
      have hwr : ((2 : ℝ) / 5) ^ (2 : ℝ) = 4 / 25 := by
        rw [show (2 : ℝ) = ((2 : ℕ) : ℝ) by norm_num, Real.rpow_natCast]
        norm_num
      norm_num [difficulty_object_previous, difficulty_object_next, checked_sub,
        get_doubletapness, f64_clamp, milliseconds_to_bpm, bpm_to_milliseconds,
        MIN_SPEED_BONUS, SPEED_BALANCING_FACTOR, SINGLE_SPACING_THRESHOLD, DIST_MULTIPLIER,
        min_def, max_def, Real.one_rpow, Real.sqrt_one,
        Real.zero_rpow (by norm_num : (3.95 : ℝ) ≠ 0), hwr]
    rw [hA, hB]
    have hlt : (1 / 2 : ℝ) ^ ((21 : ℝ) / 25) < 1 :=
      Real.rpow_lt_one (by norm_num) (by norm_num) (by norm_num)
    intro heq
    nlinarith [hlt]

end RosuPP

end

namespace RosuPP

/-! ## Legacy score simulator (src/osu/legacy_score_simulator/mod.rs and gradual.rs)

Times are modelled as exact rationals, scores as integers; the `as i32`
cast of an integer-valued `f64` is the saturating clamp `i32_clamp`, and
the truncating `f64 -> i32` cast of a general value is
`f64_as_i32 = i32_clamp ∘ trunc`. -/

/-- Rust `f64::round_ties_even` followed by `as i32` as used in `round_time`
(rounding half to even), without the saturation (the drain times in scope
are small). -/
def round_ties_even (q : ℚ) : ℤ :=
  let f := ⌊q⌋
  if q - f < 1 / 2 then f
  else if 1 / 2 < q - f then f + 1
  else if f % 2 = 0 then f else f + 1

/-- Rust truncating `f64 -> int` cast (toward zero). -/
def trunc_to_int (q : ℚ) : ℤ :=
  if q < 0 then -⌊-q⌋ else ⌊q⌋

/-- Saturation of an integer into the `i32` range, as performed by Rust's
`as i32` cast on floats. -/
def i32_clamp (n : ℤ) : ℤ :=
  max (-(2 ^ 31)) (min (2 ^ 31 - 1) n)

/-- Rust truncating saturating `f64 as i32` cast. -/
def f64_as_i32 (q : ℚ) : ℤ :=
  i32_clamp (trunc_to_int q)

/-- The inclusive integer range `lo..=hi` of a Rust `for` loop. -/
def int_range_inclusive (lo hi : ℤ) : List ℤ :=
  if hi < lo then [] else (List.range (hi - lo + 1).toNat).map fun n => lo + n

/-- The fields of `rosu_map::section::events::BreakPeriod` used by the
simulators. -/
structure BreakPeriod where
  startTime : ℚ
  endTime : ℚ
  deriving DecidableEq

/-- The fields of `BeatmapAttributes` read by
`calculate_difficulty_peppy_stars`. -/
structure BeatmapAttributes where
  hp : ℚ
  od : ℚ
  cs : ℚ
  deriving DecidableEq

/-- The function `calculate_difficulty_peppy_stars` (src/util/ruleset_ext.rs):
`((hp + od + cs + object_to_drain_ratio) / 38.0 * 5.0).round_ties_even() as i32`
with the ratio `(object_count / drain_len * 8.0).clamp(0.0, 16.0)` (or `16`
for zero drain). -/
def calculate_difficulty_peppy_stars (mapAttrs : BeatmapAttributes)
    (objectCount drainLen : ℤ) : ℤ :=
  let objectToDrainRatio : ℚ :=
    if drainLen ≠ 0 then max 0 (min 16 ((objectCount : ℚ) / (drainLen : ℚ) * 8)) else 16
  round_ties_even ((mapAttrs.hp + mapAttrs.od + mapAttrs.cs + objectToDrainRatio) / 38 * 5)

/-- The kind of a nested slider object (src/osu/object.rs). -/
inductive NestedSliderObjectKind where
  | Repeat
  | Tail
  | Tick
  deriving DecidableEq

/-- The kind payload of an `OsuObject` (src/osu/object.rs) as read by the
legacy score simulators: circles, sliders with their nested objects, and
spinners with their duration. -/
inductive OsuObjectKind where
  | circle
  | slider (nestedObjects : List NestedSliderObjectKind)
  | spinner (duration : ℚ)
  deriving DecidableEq

/-- The fields of `OsuObject` (src/osu/object.rs) read by the legacy score
simulators. -/
structure OsuObject where
  startTime : ℚ
  kind : OsuObjectKind
  deriving DecidableEq

/-- The `HitResult` variants (src/any/hit_result.rs) constructed by the
legacy score simulators. -/
inductive HitResult where
  | None
  | SmallBonus
  | LargeBonus
  deriving DecidableEq

/-- The method `HitResult::base_score` for `GameMode::Osu`
(src/any/hit_result.rs), restricted to the variants the simulators
construct: `SmallBonus -> 10`, `LargeBonus -> 50`, `None -> 0`. -/
def HitResult.base_score : HitResult → ℤ
  | .None => 0
  | .SmallBonus => 10
  | .LargeBonus => 50

/-- One invocation of `unrolled_recursion`: the flag arguments and the score
increase (`AddScoreComboMultiplier`, `IsBonus`, `IncreaseCombo` modelled as
booleans with their source defaults `No`, `No`, `Yes`). -/
structure ScoreAction where
  addScoreComboMultiplier : Bool
  isBonus : Bool
  increaseCombo : Bool
  scoreIncrease : ℕ
  bonusResult : HitResult
  deriving DecidableEq

/-- The output attributes `LegacyScoreAttributes`
(src/osu/legacy_score_simulator/mod.rs). -/
structure LegacyScoreAttributes where
  accuracyScore : ℤ
  comboScore : ℤ
  bonusScoreRatio : ℚ
  bonusScore : ℤ
  maxCombo : ℕ
  deriving DecidableEq

/-- The default `LegacyScoreAttributes`. -/
def attrs_default : LegacyScoreAttributes :=
  { accuracyScore := 0, comboScore := 0, bonusScoreRatio := 0, bonusScore := 0, maxCombo := 0 }

/-- The state `LegacyScoreSimulatorInner`
(src/osu/legacy_score_simulator/mod.rs). -/
structure LegacyScoreSimulatorInner where
  legacyBonusScore : ℤ
  standardisedBonusScore : ℤ
  combo : ℕ
  deriving DecidableEq

/-- The default `LegacyScoreSimulatorInner`. -/
def inner_default : LegacyScoreSimulatorInner :=
  { legacyBonusScore := 0, standardisedBonusScore := 0, combo := 0 }

/-- The method `LegacyScoreSimulatorInner::unrolled_recursion`
(src/osu/legacy_score_simulator/mod.rs): optionally produces the combo
score factor `combo.saturating_sub(1) * (score_increase / 25)`, adds the
score increase to either the bonus scores or the accuracy score, and
optionally increments the combo. -/
def inner_unrolled_recursion (inner : LegacyScoreSimulatorInner)
    (attrs : LegacyScoreAttributes) (a : ScoreAction) :
    LegacyScoreSimulatorInner × LegacyScoreAttributes × Option ℕ :=
  let factor := if a.addScoreComboMultiplier then
    some ((inner.combo - 1) * (a.scoreIncrease / 25)) else none
  let step := if a.isBonus then
    ({ inner with
        legacyBonusScore := inner.legacyBonusScore + a.scoreIncrease
        standardisedBonusScore := inner.standardisedBonusScore + a.bonusResult.base_score },
      attrs)
    else (inner, { attrs with accuracyScore := attrs.accuracyScore + a.scoreIncrease })
  let inner2 := if a.increaseCombo then { step.1 with combo := step.1.combo + 1 } else step.1
  (inner2, step.2, factor)

/-- The per-spinner bonus loop of `simulate_hit`: for
`i in 0..=total_half_spins_possible`, a `LargeBonus` action past the bonus
threshold on even offsets, else a `SmallBonus` action on even `i > 1`. -/
def spinner_actions (duration : ℚ) : List ScoreAction :=
  let secondsDuration := duration / 1000
  let totalHalfSpinsPossible := trunc_to_int (secondsDuration * (477 / 60) * 2)
  let halfSpinsRequiredForCompletion := trunc_to_int (secondsDuration * 3)
  let halfSpinsRequiredBeforeBonus := halfSpinsRequiredForCompletion + 3
  (int_range_inclusive 0 totalHalfSpinsPossible).filterMap fun i =>
    if halfSpinsRequiredBeforeBonus < i ∧ (i - halfSpinsRequiredBeforeBonus) % 2 = 0 then
      some ⟨false, true, false, 1100, .LargeBonus⟩
    else if 1 < i ∧ i % 2 = 0 then
      some ⟨false, true, false, 100, .SmallBonus⟩
    else none

/-- The sequence of `unrolled_recursion` invocations performed by
`simulate_hit` for one hit object.  The bodies of
`OsuLegacyScoreSimulator::simulate_hit` and
`GradualLegacyScoreSimulator::simulate_hit` are textually identical in the
source; this definition embeds both. -/
def simulate_hit_actions (obj : OsuObject) : List ScoreAction :=
  match obj.kind with
  | .circle => [⟨true, false, true, 300, .None⟩]
  | .slider nested =>
      ⟨false, false, true, 30, .None⟩ ::
        (nested.map fun n =>
          match n with
          | .Repeat | .Tail => (⟨false, false, true, 30, .None⟩ : ScoreAction)
          | .Tick => ⟨false, false, true, 10, .None⟩) ++
        [⟨true, false, false, 300, .None⟩]
  | .spinner duration => spinner_actions duration ++ [⟨true, false, true, 300, .None⟩]

/-- The method `LegacyScoreSimulatorInner::finalize`: stores the bonus score
ratio (`0` when the legacy bonus is zero), the bonus score and the maximum
combo into the attributes. -/
def inner_finalize (inner : LegacyScoreSimulatorInner) (attrs : LegacyScoreAttributes) :
    LegacyScoreAttributes :=
  { attrs with
    bonusScoreRatio := if inner.legacyBonusScore = 0 then 0
      else (inner.standardisedBonusScore : ℚ) / (inner.legacyBonusScore : ℚ)
    bonusScore := inner.legacyBonusScore
    maxCombo := inner.combo }

end RosuPP

namespace RosuPP

/-- The batch simulator's `unrolled_recursion` wrapper
(src/osu/legacy_score_simulator/mod.rs): when a factor is produced, the
combo score is immediately bumped by `(factor * score_multiplier) as i32`. -/
def batch_process_action (scoreMultiplier : ℤ)
    (st : LegacyScoreSimulatorInner × LegacyScoreAttributes) (a : ScoreAction) :
    LegacyScoreSimulatorInner × LegacyScoreAttributes :=
  let r := inner_unrolled_recursion st.1 st.2 a
  match r.2.2 with
  | some factor =>
    (r.1, { r.2.1 with
      comboScore := r.2.1.comboScore + i32_clamp ((factor : ℤ) * scoreMultiplier) })
  | none => (r.1, r.2.1)

/-- The function `OsuLegacyScoreSimulator::score_multiplier`
(src/osu/legacy_score_simulator/mod.rs): peppy stars of the passed-object
count and the drain length between the first object and the last passed
object, minus the full lengths of the breaks that end before the last
passed object's start. -/
def batch_score_multiplier (objs : List OsuObject) (breaks : List BreakPeriod)
    (mapAttrs : BeatmapAttributes) (passedObjects : ℕ) : ℤ :=
  let objectCount : ℤ := min passedObjects objs.length
  let drainLen : ℤ :=
    match objs.head?, (objs.get? (passedObjects - 1)).orElse (fun _ => objs.getLast?) with
    | some firstObj, some lastObj =>
      let breakLen : ℤ :=
        ((breaks.takeWhile fun b => b.endTime < lastObj.startTime).map fun b =>
          round_ties_even b.endTime - round_ties_even b.startTime).sum
      let fullLen := round_ties_even lastObj.startTime - round_ties_even firstObj.startTime
      Int.div (fullLen - breakLen) 1000
    | _, _ => 0
  calculate_difficulty_peppy_stars mapAttrs objectCount drainLen

/-- The method `OsuLegacyScoreSimulator::simulate`
(src/osu/legacy_score_simulator/mod.rs): process the first
`passed_objects` objects' actions with the fixed score multiplier, then
finalize. -/
def osu_legacy_simulate (objs : List OsuObject) (breaks : List BreakPeriod)
    (mapAttrs : BeatmapAttributes) (passedObjects : ℕ) : LegacyScoreAttributes :=
  let scoreMultiplier := batch_score_multiplier objs breaks mapAttrs passedObjects
  let st := (objs.take passedObjects).foldl
    (fun st obj => (simulate_hit_actions obj).foldl (batch_process_action scoreMultiplier) st)
    (inner_default, attrs_default)
  inner_finalize st.1 st.2

/-- The state of `GradualLegacyScoreSimulator`
(src/osu/legacy_score_simulator/gradual.rs). -/
structure GradualState where
  attrs : LegacyScoreAttributes
  inner : LegacyScoreSimulatorInner
  comboScoreFactors : List ℕ
  breaksRemaining : List BreakPeriod
  elapsedCurrBreak : Option ℤ
  breakLenPrelim : ℤ
  objectCount : ℕ
  startTime : Option ℤ
  prevScoreMultiplier : Option ℤ
  deriving DecidableEq

/-- The constructor `GradualLegacyScoreSimulator::new`. -/
def gradual_new (breaks : List BreakPeriod) : GradualState :=
  { attrs := attrs_default
    inner := inner_default
    comboScoreFactors := []
    breaksRemaining := breaks
    elapsedCurrBreak := none
    breakLenPrelim := 0
    objectCount := 0
    startTime := none
    prevScoreMultiplier := none }

/-- The break-advancing `while let Some(b) = self.breaks.peek()` loop of
`GradualLegacyScoreSimulator::score_multiplier`
(src/osu/legacy_score_simulator/gradual.rs).  When the peeked break
neither starts at or after the object (`break`) nor ends before it
(`next()`), the loop body only overwrites `elapsed_curr_break` and loops
again on the SAME peeked break with unchanged conditions, so the source
loop never terminates; that divergence is modelled as `none`. -/
def advance_breaks (objStartTime : ℚ) :
    List BreakPeriod → Option ℤ → ℤ → Option (List BreakPeriod × Option ℤ × ℤ)
  | [], elapsed, prelim => some ([], elapsed, prelim)
  | b :: rest, elapsed, prelim =>
    if objStartTime ≤ b.startTime then some (b :: rest, elapsed, prelim)
    else if b.endTime < objStartTime then
      advance_breaks objStartTime rest none
        (prelim + (round_ties_even b.endTime - round_ties_even b.startTime))
    else none

/-- The method `GradualLegacyScoreSimulator::score_multiplier`
(src/osu/legacy_score_simulator/gradual.rs): advance the breaks past the
current object, bump the object count, latch the first object's rounded
start time, and compute peppy stars of the incrementally tracked drain
length. -/
def gradual_score_multiplier (mapAttrs : BeatmapAttributes) (st : GradualState)
    (obj : OsuObject) : Option (ℤ × GradualState) :=
  match advance_breaks obj.startTime st.breaksRemaining st.elapsedCurrBreak st.breakLenPrelim with
  | none => none
  | some adv =>
    let objectCount := st.objectCount + 1
    let startTime := st.startTime.getD (round_ties_even obj.startTime)
    let endTime := round_ties_even obj.startTime
    let breakLen := adv.2.2 + (adv.2.1.getD 0)
    let drainLen := Int.div (endTime - startTime - breakLen) 1000
    let m := calculate_difficulty_peppy_stars mapAttrs (objectCount : ℤ) drainLen
    some (m, { st with
      breaksRemaining := adv.1
      elapsedCurrBreak := adv.2.1
      breakLenPrelim := adv.2.2
      objectCount := objectCount
      startTime := some startTime
      prevScoreMultiplier := some m })

/-- The gradual simulator's `unrolled_recursion` wrapper
(src/osu/legacy_score_simulator/gradual.rs): produced factors are pushed
onto `combo_score_factors`. -/
def gradual_process_action
    (st : LegacyScoreSimulatorInner × LegacyScoreAttributes × List ℕ) (a : ScoreAction) :
    LegacyScoreSimulatorInner × LegacyScoreAttributes × List ℕ :=
  let r := inner_unrolled_recursion st.1 st.2.1 a
  (r.1, r.2.1, match r.2.2 with
    | some factor => st.2.2 ++ [factor]
    | none => st.2.2)

/-- The method `GradualLegacyScoreSimulator::simulate_next`
(src/osu/legacy_score_simulator/gradual.rs): recompute the score
multiplier, process the object's hits, fold the stored combo score factors
against the CURRENT multiplier, truncate once to `i32`, and finalize. -/
def gradual_simulate_next (mapAttrs : BeatmapAttributes) (st : GradualState)
    (obj : OsuObject) : Option GradualState :=
  match gradual_score_multiplier mapAttrs st obj with
  | none => none
  | some (m, st1) =>
    let g := (simulate_hit_actions obj).foldl gradual_process_action
      (st1.inner, st1.attrs, st1.comboScoreFactors)
    let comboScore : ℚ := g.2.2.foldl (fun (cs : ℚ) (factor : ℕ) => cs + (factor : ℚ) * (m : ℚ)) 0
    let attrs2 := { g.2.1 with comboScore := f64_as_i32 comboScore }
    let attrs3 := inner_finalize g.1 attrs2
    some { st1 with attrs := attrs3, inner := g.1, comboScoreFactors := g.2.2 }

/-- Running the gradual legacy score simulator one object at a time over the
first `k` objects, returning the last produced attributes snapshot (or
`none` when some step diverges). -/
def gradual_run (mapAttrs : BeatmapAttributes) (objs : List OsuObject)
    (breaks : List BreakPeriod) (k : ℕ) : Option LegacyScoreAttributes :=
  ((objs.take k).foldlM (gradual_simulate_next mapAttrs) (gradual_new breaks)).map
    GradualState.attrs

end RosuPP

namespace RosuPP

lemma round_ties_even_low (q : ℚ) (n : ℤ) (h1 : (n : ℚ) ≤ q) (h2 : q < n + 1 / 2) :
    round_ties_even q = n := by
  have hf : ⌊q⌋ = n := by
    rw [Int.floor_eq_iff]
    constructor
    · exact h1
    · push_cast
      linarith
  rw [round_ties_even, hf]
  rw [if_pos (by push_cast; linarith)]

lemma round_ties_even_high (q : ℚ) (n : ℤ) (h1 : (n : ℚ) + 1 / 2 < q) (h2 : q < n + 1) :
    round_ties_even q = n + 1 := by
  have hf : ⌊q⌋ = n := by
    rw [Int.floor_eq_iff]
    constructor
    · push_cast at h1 ⊢
      linarith
    · push_cast
      linarith
  rw [round_ties_even, hf]
  rw [if_neg (by push_cast; linarith), if_pos (by push_cast; linarith)]

lemma round_ties_even_intCast (n : ℤ) : round_ties_even (n : ℚ) = n := by
  have := round_ties_even_low (n : ℚ) n (le_refl _) (by push_cast; linarith)
  exact this

end RosuPP

namespace RosuPP

lemma peppy_eval (mapAttrs : BeatmapAttributes) (oc dl : ℤ) (r : ℚ)
    (hr : (if dl ≠ 0 then max 0 (min 16 ((oc : ℚ) / (dl : ℚ) * 8)) else 16) = r) :
    calculate_difficulty_peppy_stars mapAttrs oc dl =
      round_ties_even ((mapAttrs.hp + mapAttrs.od + mapAttrs.cs + r) / 38 * 5) := by
  rw [calculate_difficulty_peppy_stars, hr]

lemma claim_C1_cex_m1 : calculate_difficulty_peppy_stars ⟨7, 6, 57 / 10⟩ 1 0 = 5 := by
  rw [peppy_eval ⟨7, 6, 57 / 10⟩ 1 0 16 (by norm_num)]
  rw [show ((⟨7, 6, 57 / 10⟩ : BeatmapAttributes).hp + (⟨7, 6, 57 / 10⟩ : BeatmapAttributes).od +
      (⟨7, 6, 57 / 10⟩ : BeatmapAttributes).cs + (16 : ℚ)) / 38 * 5 = 347 / 76 by norm_num]
  rw [show (5 : ℤ) = 4 + 1 by norm_num]
  exact round_ties_even_high _ 4 (by norm_num) (by norm_num)

lemma claim_C1_cex_m2 : calculate_difficulty_peppy_stars ⟨7, 6, 57 / 10⟩ 2 50 = 3 := by
  rw [peppy_eval ⟨7, 6, 57 / 10⟩ 2 50 (8 / 25) (by norm_num [min_def, max_def])]
  rw [show ((⟨7, 6, 57 / 10⟩ : BeatmapAttributes).hp + (⟨7, 6, 57 / 10⟩ : BeatmapAttributes).od +
      (⟨7, 6, 57 / 10⟩ : BeatmapAttributes).cs + (8 / 25 : ℚ)) / 38 * 5 = 951 / 380 by norm_num]
  rw [show (3 : ℤ) = 2 + 1 by norm_num]
  exact round_ties_even_high _ 2 (by norm_num) (by norm_num)

lemma claim_C1_cex_mb : calculate_difficulty_peppy_stars ⟨7, 6, 57 / 10⟩ 3 100 = 2 := by
  rw [peppy_eval ⟨7, 6, 57 / 10⟩ 3 100 (6 / 25) (by norm_num [min_def, max_def])]
  rw [show ((⟨7, 6, 57 / 10⟩ : BeatmapAttributes).hp + (⟨7, 6, 57 / 10⟩ : BeatmapAttributes).od +
      (⟨7, 6, 57 / 10⟩ : BeatmapAttributes).cs + (6 / 25 : ℚ)) / 38 * 5 = 947 / 380 by norm_num]
  exact round_ties_even_low _ 2 (by norm_num) (by norm_num)

end RosuPP

namespace RosuPP

lemma claim_C1_cex_rte0 : round_ties_even (0 : ℚ) = 0 := by
  rw [show (0 : ℚ) = ((0 : ℤ) : ℚ) by norm_num]
  exact round_ties_even_intCast 0

lemma claim_C1_cex_rte5 : round_ties_even (50000 : ℚ) = 50000 := by
  rw [show (50000 : ℚ) = ((50000 : ℤ) : ℚ) by norm_num]
  exact round_ties_even_intCast 50000

lemma claim_C1_cex_rte10 : round_ties_even (100000 : ℚ) = 100000 := by
  rw [show (100000 : ℚ) = ((100000 : ℤ) : ℚ) by norm_num]
  exact round_ties_even_intCast 100000

lemma claim_C1_cex_step1 :
    gradual_simulate_next ⟨7, 6, 57 / 10⟩ (gradual_new [⟨60000, 150000⟩]) ⟨0, .circle⟩ =
      some ⟨⟨300, 0, 0, 0, 1⟩, ⟨0, 0, 1⟩, [0], [⟨60000, 150000⟩], none, 0, 1, some 0, some 5⟩ := by
  rw [gradual_simulate_next, gradual_score_multiplier, gradual_new]
  norm_num [advance_breaks, simulate_hit_actions, gradual_process_action,
    inner_unrolled_recursion, inner_finalize, inner_default, attrs_default, f64_as_i32,
    trunc_to_int, i32_clamp, HitResult.base_score, claim_C1_cex_rte0,
    show Int.div 0 1000 = 0 by decide, claim_C1_cex_m1, min_def, max_def]

end RosuPP

namespace RosuPP

lemma claim_C1_cex_step2 :
    gradual_simulate_next ⟨7, 6, 57 / 10⟩
        ⟨⟨300, 0, 0, 0, 1⟩, ⟨0, 0, 1⟩, [0], [⟨60000, 150000⟩], none, 0, 1, some 0, some 5⟩
        ⟨50000, .circle⟩ =
      some ⟨⟨600, 0, 0, 0, 2⟩, ⟨0, 0, 2⟩, [0, 0], [⟨60000, 150000⟩], none, 0, 2, some 0,
        some 3⟩ := by
  rw [gradual_simulate_next, gradual_score_multiplier]
  norm_num [advance_breaks, simulate_hit_actions, gradual_process_action,
    inner_unrolled_recursion, inner_finalize, f64_as_i32, trunc_to_int, i32_clamp,
    HitResult.base_score, claim_C1_cex_rte5,
    show Int.div 50000 1000 = 50 by decide, claim_C1_cex_m2, min_def, max_def]

lemma claim_C1_cex_step3 :
    gradual_simulate_next ⟨7, 6, 57 / 10⟩
        ⟨⟨600, 0, 0, 0, 2⟩, ⟨0, 0, 2⟩, [0, 0], [⟨60000, 150000⟩], none, 0, 2, some 0, some 3⟩
        ⟨100000, .circle⟩ = none := by
  rw [gradual_simulate_next, gradual_score_multiplier]
  norm_num [advance_breaks]

/-- Counterexample to C1 as stated: on the map with three circles at 0 ms,
50000 ms and 100000 ms, a break from 60000 ms to 150000 ms (overlapping the
last object), and map attributes `hp = 7, od = 6, cs = 5.7`, the batch
simulator with `passed_objects = 3` returns the legacy score attributes
(accuracy 900, combo score 24, max combo 3), while the gradual simulator's
third `simulate_next` call never returns: its break-advancing loop neither
consumes nor exits past the overlapping break (modelled as `none`).
Moreover the partial-break drain accounting it was about to perform
(drain 60 s instead of the batch's 100 s) would yield score multiplier 3
instead of 2, so the outputs would differ even if the loop terminated. -/
theorem claim_C1_counterexample :
    gradual_run ⟨7, 6, 57 / 10⟩ [⟨0, .circle⟩, ⟨50000, .circle⟩, ⟨100000, .circle⟩]
        [⟨60000, 150000⟩] 3 = none ∧
      osu_legacy_simulate [⟨0, .circle⟩, ⟨50000, .circle⟩, ⟨100000, .circle⟩]
        [⟨60000, 150000⟩] ⟨7, 6, 57 / 10⟩ 3 = ⟨900, 24, 0, 0, 3⟩ := by
  constructor
  · rw [gradual_run]
    rw [show ([⟨0, .circle⟩, ⟨50000, .circle⟩, ⟨100000, .circle⟩] : List OsuObject).take 3 =
      [⟨0, .circle⟩, ⟨50000, .circle⟩, ⟨100000, .circle⟩] by rfl]
    rw [List.foldlM_cons, claim_C1_cex_step1]
    rw [Option.bind_eq_bind, Option.some_bind]
    rw [List.foldlM_cons, claim_C1_cex_step2]
    rw [Option.bind_eq_bind, Option.some_bind]
    rw [List.foldlM_cons, claim_C1_cex_step3]
    rfl
  · have hM : batch_score_multiplier [⟨0, .circle⟩, ⟨50000, .circle⟩, ⟨100000, .circle⟩]
        [⟨60000, 150000⟩] ⟨7, 6, 57 / 10⟩ 3 = 2 := by
      rw [batch_score_multiplier]
      norm_num [List.takeWhile, claim_C1_cex_rte0, claim_C1_cex_rte10,
        show Int.div 100000 1000 = 100 by decide, claim_C1_cex_mb]
    rw [osu_legacy_simulate, hM]
    norm_num [simulate_hit_actions, batch_process_action, inner_unrolled_recursion,
      inner_finalize, inner_default, attrs_default, i32_clamp, HitResult.base_score,
      min_def, max_def]

end RosuPP

namespace RosuPP

lemma trunc_to_int_intCast (n : ℤ) : trunc_to_int (n : ℚ) = n := by
  rw [trunc_to_int]
  by_cases h : (n : ℚ) < 0
  · rw [if_pos h, show (-(n : ℚ)) = ((-n : ℤ) : ℚ) by push_cast; ring, Int.floor_intCast]
    ring
  · rw [if_neg h, Int.floor_intCast]

lemma f64_as_i32_intCast (n : ℤ) : f64_as_i32 (n : ℚ) = i32_clamp n := by
  rw [f64_as_i32, trunc_to_int_intCast]

lemma i32_clamp_eq_self (n : ℤ) (h1 : -(2 ^ 31) ≤ n) (h2 : n ≤ 2 ^ 31 - 1) :
    i32_clamp n = n := by
  rw [i32_clamp, min_eq_right h2, max_eq_right h1]

lemma round_ties_even_nonneg (q : ℚ) (h : 0 ≤ q) : 0 ≤ round_ties_even q := by
  have hf : (0 : ℤ) ≤ ⌊q⌋ := Int.floor_nonneg.mpr h
  rw [round_ties_even]
  split
  · exact hf
  · split
    · omega
    · split
      · exact hf
      · omega

lemma calculate_difficulty_peppy_stars_nonneg (mapAttrs : BeatmapAttributes)
    (objectCount drainLen : ℤ) (h : 0 ≤ mapAttrs.hp + mapAttrs.od + mapAttrs.cs) :
    0 ≤ calculate_difficulty_peppy_stars mapAttrs objectCount drainLen := by
  rw [calculate_difficulty_peppy_stars]
  apply round_ties_even_nonneg
  have hr : (0 : ℚ) ≤ (if drainLen ≠ 0 then
      max 0 (min 16 ((objectCount : ℚ) / (drainLen : ℚ) * 8)) else 16) := by
    split
    · exact le_max_left 0 _
    · norm_num
  have : (0 : ℚ) ≤ mapAttrs.hp + mapAttrs.od + mapAttrs.cs + (if drainLen ≠ 0 then
      max 0 (min 16 ((objectCount : ℚ) / (drainLen : ℚ) * 8)) else 16) := by linarith
  positivity

lemma nat_mem_le_sum (fs : List ℕ) (f : ℕ) (hf : f ∈ fs) : f ≤ fs.sum := by
  induction fs with
  | nil => simp at hf
  | cons x xs ih =>
    rcases List.mem_cons.mp hf with rfl | hf'
    · simp
    · have := ih hf'
      simp only [List.sum_cons]
      omega

lemma sum_map_natCast_mul (fs : List ℕ) (m : ℤ) :
    (fs.map fun (f : ℕ) => (f : ℤ) * m).sum = (fs.sum : ℤ) * m := by
  induction fs with
  | nil => simp
  | cons x xs ih =>
    simp only [List.map_cons, List.sum_cons, ih]
    push_cast
    ring

lemma sum_map_clamp_eq (fs : List ℕ) (m : ℤ) (hm : 0 ≤ m)
    (hbound : (fs.sum : ℤ) * m ≤ 2 ^ 31 - 1) :
    (fs.map fun (f : ℕ) => i32_clamp ((f : ℤ) * m)).sum = (fs.sum : ℤ) * m := by
  have hterm : ∀ f ∈ fs, i32_clamp ((f : ℤ) * m) = (f : ℤ) * m := by
    intro f hf
    have h0 : (0 : ℤ) ≤ (f : ℤ) * m := mul_nonneg (Int.natCast_nonneg f) hm
    refine i32_clamp_eq_self _ (by linarith [h0]) ?_
    calc (f : ℤ) * m ≤ (fs.sum : ℤ) * m := by
          have : (f : ℤ) ≤ (fs.sum : ℤ) := by exact_mod_cast nat_mem_le_sum fs f hf
          exact mul_le_mul_of_nonneg_right this hm
      _ ≤ 2 ^ 31 - 1 := hbound
  rw [List.map_congr_left hterm, sum_map_natCast_mul]

lemma combo_fold_eq (fs : List ℕ) (m : ℤ) :
    fs.foldl (fun (cs : ℚ) (f : ℕ) => cs + (f : ℚ) * (m : ℚ)) 0 = (((fs.sum : ℤ) * m : ℤ) : ℚ) := by
  suffices h : ∀ c : ℚ, fs.foldl (fun (cs : ℚ) (f : ℕ) => cs + (f : ℚ) * (m : ℚ)) c =
      c + (((fs.sum : ℤ) * m : ℤ) : ℚ) by
    rw [h 0, zero_add]
  induction fs with
  | nil => intro c; simp
  | cons x xs ih =>
    intro c
    simp only [List.foldl_cons, List.sum_cons, ih]
    push_cast
    ring

end RosuPP

namespace RosuPP

lemma inner_unrolled_spec (i : LegacyScoreSimulatorInner) (a b : LegacyScoreAttributes)
    (act : ScoreAction) (h : a.accuracyScore = b.accuracyScore) :
    (inner_unrolled_recursion i a act).1 = (inner_unrolled_recursion i b act).1 ∧
    (inner_unrolled_recursion i a act).2.2 = (inner_unrolled_recursion i b act).2.2 ∧
    (inner_unrolled_recursion i a act).2.1 =
      { a with accuracyScore := (inner_unrolled_recursion i b act).2.1.accuracyScore } := by
  obtain ⟨aa, ac, ar, ab2, am⟩ := a
  obtain ⟨ba, bc, br, bb2, bm⟩ := b
  simp only [] at h
  subst h
  rw [inner_unrolled_recursion, inner_unrolled_recursion]
  by_cases hb : act.isBonus
  · simp [hb]
  · simp [hb]

lemma inner_unrolled_combo (i : LegacyScoreSimulatorInner) (b : LegacyScoreAttributes)
    (act : ScoreAction) :
    (inner_unrolled_recursion i b act).2.1.comboScore = b.comboScore := by
  rw [inner_unrolled_recursion]
  by_cases hb : act.isBonus
  · simp [hb]
  · simp [hb]

lemma gradual_fold_spec (acts : List ScoreAction) :
    ∀ (i : LegacyScoreSimulatorInner) (a b : LegacyScoreAttributes) (fs : List ℕ),
      a.accuracyScore = b.accuracyScore →
      (acts.foldl gradual_process_action (i, a, fs)).1 =
        (acts.foldl gradual_process_action (i, b, [])).1 ∧
      (acts.foldl gradual_process_action (i, a, fs)).2.1 =
        { a with accuracyScore :=
            (acts.foldl gradual_process_action (i, b, [])).2.1.accuracyScore } ∧
      (acts.foldl gradual_process_action (i, a, fs)).2.2 =
        fs ++ (acts.foldl gradual_process_action (i, b, [])).2.2 := by
  induction acts with
  | nil =>
    intro i a b fs h
    refine ⟨rfl, ?_, by simp⟩
    obtain ⟨aa, ac, ar, ab2, am⟩ := a
    simp only [List.foldl_nil]
    simp only [] at h
    rw [h]
  | cons act rest ih =>
    intro i a b fs h
    rw [List.foldl_cons, List.foldl_cons, gradual_process_action, gradual_process_action]
    obtain ⟨h1, h2, h3⟩ := inner_unrolled_spec i a b act h
    have hacc : (inner_unrolled_recursion i a act).2.1.accuracyScore =
        (inner_unrolled_recursion i b act).2.1.accuracyScore := by
      rw [h3]
    rw [h1, h2]
    cases hf : (inner_unrolled_recursion i b act).2.2 with
    | none =>
      obtain ⟨k1, k2, k3⟩ := ih (inner_unrolled_recursion i b act).1
        (inner_unrolled_recursion i a act).2.1 (inner_unrolled_recursion i b act).2.1 fs hacc
      refine ⟨k1, ?_, k3⟩
      rw [k2, h3]
    | some f =>
      simp only [List.nil_append]
      obtain ⟨k1, k2, k3⟩ := ih (inner_unrolled_recursion i b act).1
        (inner_unrolled_recursion i a act).2.1 (inner_unrolled_recursion i b act).2.1
        (fs ++ [f]) hacc
      obtain ⟨c1, c2, c3⟩ := ih (inner_unrolled_recursion i b act).1
        (inner_unrolled_recursion i b act).2.1 (inner_unrolled_recursion i b act).2.1 [f] rfl
      refine ⟨by rw [k1, c1], ?_, ?_⟩
      · rw [k2, h3, c2]
      · rw [k3, c3, List.append_assoc]

end RosuPP

namespace RosuPP

lemma batch_fold_eq (acts : List ScoreAction) :
    ∀ (scoreMultiplier : ℤ) (i : LegacyScoreSimulatorInner) (b : LegacyScoreAttributes),
      acts.foldl (batch_process_action scoreMultiplier) (i, b) =
        ((acts.foldl gradual_process_action (i, b, [])).1,
         { (acts.foldl gradual_process_action (i, b, [])).2.1 with
           comboScore := b.comboScore +
             (((acts.foldl gradual_process_action (i, b, [])).2.2).map
               fun (f : ℕ) => i32_clamp ((f : ℤ) * scoreMultiplier)).sum }) := by
  induction acts with
  | nil =>
    intro scoreMultiplier i b
    simp only [List.foldl_nil, List.map_nil, List.sum_nil, add_zero]
  | cons act rest ih =>
    intro scoreMultiplier i b
    rw [List.foldl_cons, List.foldl_cons, batch_process_action, gradual_process_action]
    cases hf : (inner_unrolled_recursion i b act).2.2 with
    | none =>
      simp only []
      rw [ih, inner_unrolled_combo]
    | some f =>
      simp only [List.nil_append]
      rw [ih]
      obtain ⟨k1, k2, k3⟩ := gradual_fold_spec rest (inner_unrolled_recursion i b act).1
        { (inner_unrolled_recursion i b act).2.1 with
          comboScore := (inner_unrolled_recursion i b act).2.1.comboScore +
            i32_clamp ((f : ℤ) * scoreMultiplier) }
        (inner_unrolled_recursion i b act).2.1 [] rfl
      obtain ⟨c1, c2, c3⟩ := gradual_fold_spec rest (inner_unrolled_recursion i b act).1
        (inner_unrolled_recursion i b act).2.1 (inner_unrolled_recursion i b act).2.1 [f] rfl
      rw [k1, k2, k3, c1, c2, c3]
      simp only [List.nil_append, List.singleton_append, List.map_cons, List.sum_cons,
        inner_unrolled_combo, LegacyScoreAttributes.mk.injEq]
      refine Prod.ext rfl ?_
      simp only [LegacyScoreAttributes.mk.injEq]
      refine ⟨trivial, ?_, trivial, trivial, trivial⟩
      ring

end RosuPP

namespace RosuPP

/-- Closed form of the break-advancing loop when it terminates: under
well-formed breaks none of which straddles the object's start time, it
consumes exactly the leading breaks that end before the object, resets the
elapsed marker, and accumulates their rounded lengths. -/
lemma advance_breaks_spec (s : ℚ) :
    ∀ (bs : List BreakPeriod) (p : ℤ),
      (∀ b ∈ bs, b.startTime ≤ b.endTime) →
      (∀ b ∈ bs, b.endTime < s ∨ s ≤ b.startTime) →
      advance_breaks s bs none p =
        some (bs.drop (bs.takeWhile fun b => b.endTime < s).length, none,
          p + ((bs.takeWhile fun b => b.endTime < s).map fun b =>
            round_ties_even b.endTime - round_ties_even b.startTime).sum) := by
  intro bs
  induction bs with
  | nil =>
    intro p _ _
    simp [advance_breaks]
  | cons b rest ih =>
    intro p hwf hns
    rcases hns b (List.mem_cons_self b rest) with hlt | hge
    · have hnotle : ¬ s ≤ b.startTime := by
        have := hwf b (List.mem_cons_self b rest)
        linarith
      rw [advance_breaks, if_neg hnotle, if_pos hlt]
      rw [ih (p + (round_ties_even b.endTime - round_ties_even b.startTime))
        (fun x hx => hwf x (List.mem_cons_of_mem b hx))
        (fun x hx => hns x (List.mem_cons_of_mem b hx))]
      have htw : ((b :: rest).takeWhile fun x => x.endTime < s) =
          b :: (rest.takeWhile fun x => x.endTime < s) := by
        simp [List.takeWhile_cons, hlt]
      rw [htw]
      simp only [List.length_cons, List.drop_succ_cons, List.map_cons, List.sum_cons]
      rw [show p + (round_ties_even b.endTime - round_ties_even b.startTime) +
          ((rest.takeWhile fun x => x.endTime < s).map fun x =>
            round_ties_even x.endTime - round_ties_even x.startTime).sum =
          p + ((round_ties_even b.endTime - round_ties_even b.startTime) +
          ((rest.takeWhile fun x => x.endTime < s).map fun x =>
            round_ties_even x.endTime - round_ties_even x.startTime).sum) by ring]
    · have hle : ¬ b.endTime < s := not_lt.mpr (le_trans hge (hwf b (List.mem_cons_self b rest)))
      rw [advance_breaks, if_pos hge]
      have htw : ((b :: rest).takeWhile fun x => x.endTime < s) = [] := by
        simp [List.takeWhile_cons, hle]
      rw [htw]
      simp

/-- Scanning for a later threshold continues the scan for an earlier one:
the breaks ending before a later object are the breaks ending before an
earlier object followed by the breaks (among the remainder) ending before
the later one. -/
lemma takeWhile_le_append {s t : ℚ} (hst : s ≤ t) :
    ∀ (bs : List BreakPeriod),
      (bs.takeWhile fun b => b.endTime < t) =
        (bs.takeWhile fun b => b.endTime < s) ++
          ((bs.drop (bs.takeWhile fun b => b.endTime < s).length).takeWhile
            fun b => b.endTime < t) := by
  intro bs
  induction bs with
  | nil => rfl
  | cons b rest ih =>
    by_cases h : b.endTime < s
    · have h' : b.endTime < t := lt_of_lt_of_le h hst
      simp only [List.takeWhile_cons, decide_eq_true_eq, if_pos h, if_pos h',
        List.length_cons, List.drop_succ_cons, List.cons_append]
      rw [ih]
    · simp only [List.takeWhile_cons, decide_eq_true_eq, if_neg h,
        List.length_nil, List.drop_zero, List.nil_append]

/-- A fold of per-element inner folds equals one fold over the flattened
list. -/
lemma foldl_foldl_bind {α β σ : Type} (g : σ → β → σ) (f : α → List β) :
    ∀ (l : List α) (init : σ),
      l.foldl (fun st x => (f x).foldl g st) init = (l.flatMap f).foldl g init := by
  intro l
  induction l with
  | nil => intro init; rfl
  | cons x xs ih =>
    intro init
    rw [List.flatMap_cons, List.foldl_append, List.foldl_cons, ih]

end RosuPP

namespace RosuPP

/-- One terminating `simulate_next` step in closed form: starting from a
state with no elapsed break marker whose remaining breaks do not straddle
the object, the step consumes the breaks ending before the object,
recomputes the peppy-stars multiplier from the accumulated drain length,
folds the object's actions, and snapshots the attributes with the combo
score folded against the current multiplier. -/
lemma gradual_step_eval (mapAttrs : BeatmapAttributes) (obj : OsuObject)
    (A : LegacyScoreAttributes) (i : LegacyScoreSimulatorInner) (fs : List ℕ)
    (bs : List BreakPeriod) (p : ℤ) (oc : ℕ) (t0 : Option ℤ) (pm : Option ℤ)
    (hbswf : ∀ b ∈ bs, b.startTime ≤ b.endTime)
    (hbs : ∀ b ∈ bs, b.endTime < obj.startTime ∨ obj.startTime ≤ b.startTime) :
    gradual_simulate_next mapAttrs ⟨A, i, fs, bs, none, p, oc, t0, pm⟩ obj =
      some ⟨inner_finalize
          ((simulate_hit_actions obj).foldl gradual_process_action (i, A, fs)).1
          { ((simulate_hit_actions obj).foldl gradual_process_action (i, A, fs)).2.1 with
            comboScore := i32_clamp
              ((((simulate_hit_actions obj).foldl gradual_process_action (i, A, fs)).2.2.sum : ℤ) *
                calculate_difficulty_peppy_stars mapAttrs ((oc + 1 : ℕ) : ℤ)
                  (Int.div (round_ties_even obj.startTime -
                    t0.getD (round_ties_even obj.startTime) -
                    (p + ((bs.takeWhile fun b => b.endTime < obj.startTime).map fun b =>
                      round_ties_even b.endTime - round_ties_even b.startTime).sum)) 1000)) },
        ((simulate_hit_actions obj).foldl gradual_process_action (i, A, fs)).1,
        ((simulate_hit_actions obj).foldl gradual_process_action (i, A, fs)).2.2,
        bs.drop (bs.takeWhile fun b => b.endTime < obj.startTime).length,
        none,
        p + ((bs.takeWhile fun b => b.endTime < obj.startTime).map fun b =>
          round_ties_even b.endTime - round_ties_even b.startTime).sum,
        oc + 1,
        some (t0.getD (round_ties_even obj.startTime)),
        some (calculate_difficulty_peppy_stars mapAttrs ((oc + 1 : ℕ) : ℤ)
          (Int.div (round_ties_even obj.startTime - t0.getD (round_ties_even obj.startTime) -
            (p + ((bs.takeWhile fun b => b.endTime < obj.startTime).map fun b =>
              round_ties_even b.endTime - round_ties_even b.startTime).sum)) 1000))⟩ := by
  rw [gradual_simulate_next, gradual_score_multiplier]
  simp only [advance_breaks_spec obj.startTime bs p hbswf hbs, Option.getD_none, add_zero]
  rw [combo_fold_eq, f64_as_i32_intCast]

end RosuPP

namespace RosuPP

/-- Derived closed form (proved below, not part of the source) of the
gradual simulator's state after successfully processing a nonempty object
prefix `done` with head `first` and last element `last`. -/
def gradual_spec_state (mapAttrs : BeatmapAttributes) (breaks : List BreakPeriod)
    (done : List OsuObject) (first last : OsuObject) : GradualState :=
  let G := (done.flatMap simulate_hit_actions).foldl gradual_process_action
    (inner_default, attrs_default, [])
  let breakSum := ((breaks.takeWhile fun b => b.endTime < last.startTime).map fun b =>
    round_ties_even b.endTime - round_ties_even b.startTime).sum
  let M := calculate_difficulty_peppy_stars mapAttrs (done.length : ℤ)
    (Int.div (round_ties_even last.startTime - round_ties_even first.startTime - breakSum) 1000)
  { attrs := inner_finalize G.1 { G.2.1 with comboScore := i32_clamp ((G.2.2.sum : ℤ) * M) }
    inner := G.1
    comboScoreFactors := G.2.2
    breaksRemaining := breaks.drop (breaks.takeWhile fun b => b.endTime < last.startTime).length
    elapsedCurrBreak := none
    breakLenPrelim := breakSum
    objectCount := done.length
    startTime := some (round_ties_even first.startTime)
    prevScoreMultiplier := some M }

end RosuPP

namespace RosuPP

/-- The action fold's inner state, produced factors and accuracy score do
not depend on the non-accuracy fields of the attributes it starts from. -/
lemma gradual_fold_acc_irrel (acts : List ScoreAction) (i : LegacyScoreSimulatorInner)
    (A B : LegacyScoreAttributes) (fs : List ℕ) (h : A.accuracyScore = B.accuracyScore) :
    (acts.foldl gradual_process_action (i, A, fs)).1 =
      (acts.foldl gradual_process_action (i, B, fs)).1 ∧
    (acts.foldl gradual_process_action (i, A, fs)).2.2 =
      (acts.foldl gradual_process_action (i, B, fs)).2.2 ∧
    (acts.foldl gradual_process_action (i, A, fs)).2.1.accuracyScore =
      (acts.foldl gradual_process_action (i, B, fs)).2.1.accuracyScore := by
  obtain ⟨a1, a2, a3⟩ := gradual_fold_spec acts i A B fs h
  obtain ⟨b1, b2, b3⟩ := gradual_fold_spec acts i B B fs rfl
  refine ⟨a1.trans b1.symm, ?_, ?_⟩
  · rw [a3, b3]
  · rw [a2, b2]

/-- Finalized attribute snapshots agree when the inner states, the combo
scores and the accuracy scores agree (the remaining fields are overwritten
by `finalize`). -/
lemma finalize_combo_ext (i i' : LegacyScoreSimulatorInner) (r r' : LegacyScoreAttributes)
    (v v' : ℤ) (hi : i = i') (hacc : r.accuracyScore = r'.accuracyScore) (hv : v = v') :
    inner_finalize i { r with comboScore := v } = inner_finalize i' { r' with comboScore := v' } := by
  subst hi
  subst hv
  simp [inner_finalize, hacc]

end RosuPP

namespace RosuPP

/-- The gradual simulator's run over a nonempty sorted object prefix whose
objects are not straddled by any break terminates and reaches the closed
form `gradual_spec_state`. -/
lemma gradual_fold_run (mapAttrs : BeatmapAttributes) (breaks : List BreakPeriod)
    (hbrwf : ∀ b ∈ breaks, b.startTime ≤ b.endTime) :
    ∀ (done : List OsuObject) (first last : OsuObject),
      done.head? = some first → done.getLast? = some last →
      done.Pairwise (fun a b => a.startTime ≤ b.startTime) →
      (∀ b ∈ breaks, ∀ o ∈ done, b.endTime < o.startTime ∨ o.startTime ≤ b.startTime) →
      done.foldlM (gradual_simulate_next mapAttrs) (gradual_new breaks) =
        some (gradual_spec_state mapAttrs breaks done first last) := by
  intro done
  induction done using List.reverseRecOn with
  | nil =>
    intro first last hf _ _ _
    simp at hf
  | append_singleton l a ih =>
    intro first last hf hl hsorted hns
    have hlast : a = last := by
      have h0 : (l ++ [a]).getLast? = some a := by simp
      rw [h0] at hl
      exact Option.some.inj hl
    subst hlast
    rcases eq_or_ne l [] with rfl | hln
    · simp only [List.nil_append] at hf hsorted hns ⊢
      have hfirst : a = first := by
        simp only [List.head?_cons] at hf
        exact Option.some.inj hf
      subst hfirst
      simp only [List.foldlM_cons, List.foldlM_nil, bind_pure]
      rw [gradual_new]
      rw [gradual_step_eval mapAttrs a attrs_default inner_default [] breaks 0 0 none none
        hbrwf (fun b hb => hns b hb a (List.mem_singleton_self a))]
      simp only [gradual_spec_state, List.flatMap_cons, List.flatMap_nil, List.append_nil,
        Option.getD_none, zero_add, List.length_cons, List.length_nil, Nat.zero_add]
    · obtain ⟨last_l, hgl⟩ : ∃ x, l.getLast? = some x := by
        cases hgl' : l.getLast? with
        | none => exact absurd (List.getLast?_eq_none_iff.mp hgl') hln
        | some x => exact ⟨x, rfl⟩
      have hfirst : l.head? = some first := by
        rw [List.head?_append_of_ne_nil l hln] at hf
        exact hf
      have hpair := List.pairwise_append.mp hsorted
      have hsorted' : l.Pairwise (fun a b => a.startTime ≤ b.startTime) := hpair.1
      have hle : last_l.startTime ≤ a.startTime :=
        hpair.2.2 last_l (List.mem_of_mem_getLast? hgl) a (List.mem_singleton_self a)
      have hns' : ∀ b ∈ breaks, ∀ o ∈ l,
          b.endTime < o.startTime ∨ o.startTime ≤ b.startTime :=
        fun b hb o ho => hns b hb o (List.mem_append_left _ ho)
      rw [List.foldlM_append, ih first last_l hfirst hgl hsorted' hns']
      simp only [Option.bind_eq_bind, Option.some_bind, List.foldlM_cons, List.foldlM_nil,
        bind_pure]
      simp only [gradual_spec_state]
      rw [List.flatMap_append, List.flatMap_cons, List.flatMap_nil, List.append_nil,
        List.foldl_append]
      set Gl := (l.flatMap simulate_hit_actions).foldl gradual_process_action
        (inner_default, attrs_default, ([] : List ℕ)) with hGl
      set tw1 := breaks.takeWhile fun b => b.endTime < last_l.startTime with htw1
      set S1 := (tw1.map fun b =>
        round_ties_even b.endTime - round_ties_even b.startTime).sum with hS1
      set M1 := calculate_difficulty_peppy_stars mapAttrs (l.length : ℤ)
        (Int.div (round_ties_even last_l.startTime - round_ties_even first.startTime - S1)
          1000) with hM1
      generalize hAS : inner_finalize Gl.1
        { Gl.2.1 with comboScore := i32_clamp ((Gl.2.2.sum : ℤ) * M1) } = AS
      have haccAS : AS.accuracyScore = Gl.2.1.accuracyScore := by
        rw [← hAS]
        rfl
      have hbswf' : ∀ b ∈ breaks.drop tw1.length, b.startTime ≤ b.endTime :=
        fun b hb => hbrwf b (List.mem_of_mem_drop hb)
      have hbs' : ∀ b ∈ breaks.drop tw1.length,
          b.endTime < a.startTime ∨ a.startTime ≤ b.startTime :=
        fun b hb => hns b (List.mem_of_mem_drop hb) a
          (List.mem_append_right _ (List.mem_singleton_self a))
      rw [gradual_step_eval mapAttrs a AS Gl.1 Gl.2.2 (breaks.drop tw1.length) S1 l.length
        (some (round_ties_even first.startTime)) (some M1) hbswf' hbs']
      set tw2 := (breaks.drop tw1.length).takeWhile fun b => b.endTime < a.startTime with htw2
      have htwF : (breaks.takeWhile fun b => b.endTime < a.startTime) = tw1 ++ tw2 := by
        rw [takeWhile_le_append hle breaks, ← htw1, ← htw2]
      rw [htwF]
      simp only [Option.getD_some, List.length_append, List.length_singleton,
        List.map_append, List.sum_append, ← hS1, List.drop_drop]
      obtain ⟨e1, e3, e2⟩ := gradual_fold_acc_irrel (simulate_hit_actions a) Gl.1 AS Gl.2.1
        Gl.2.2 haccAS
      have hv : i32_clamp
          ((((simulate_hit_actions a).foldl gradual_process_action (Gl.1, AS, Gl.2.2)).2.2.sum : ℤ) *
            calculate_difficulty_peppy_stars mapAttrs ((l.length + 1 : ℕ) : ℤ)
              (Int.div (round_ties_even a.startTime - round_ties_even first.startTime -
                (S1 + (tw2.map fun b =>
                  round_ties_even b.endTime - round_ties_even b.startTime).sum)) 1000)) =
          i32_clamp
          ((((simulate_hit_actions a).foldl gradual_process_action (Gl.1, Gl.2.1, Gl.2.2)).2.2.sum : ℤ) *
            calculate_difficulty_peppy_stars mapAttrs ((l.length + 1 : ℕ) : ℤ)
              (Int.div (round_ties_even a.startTime - round_ties_even first.startTime -
                (S1 + (tw2.map fun b =>
                  round_ties_even b.endTime - round_ties_even b.startTime).sum)) 1000)) := by
        rw [e3]
      have hattrs := finalize_combo_ext
        ((simulate_hit_actions a).foldl gradual_process_action (Gl.1, AS, Gl.2.2)).1
        ((simulate_hit_actions a).foldl gradual_process_action (Gl.1, Gl.2.1, Gl.2.2)).1
        ((simulate_hit_actions a).foldl gradual_process_action (Gl.1, AS, Gl.2.2)).2.1
        ((simulate_hit_actions a).foldl gradual_process_action (Gl.1, Gl.2.1, Gl.2.2)).2.1
        _ _ e1 e2 hv
      rw [hattrs, e1, e3]

end RosuPP

namespace RosuPP

/-- C1: the incremental (gradual) legacy score simulator agrees with the
batch simulator on every prefix — but only under the amended side
conditions: the objects are sorted by start time, the breaks are
well-formed, no break straddles a passed object's start time (otherwise
the gradual simulator's break loop diverges, see
`claim_C1_counterexample`), and the combo score does not saturate the
`i32` range.  Under these conditions running the gradual interface one
object at a time up to object `k` yields exactly the batch attributes for
`passed_objects = k`. -/
theorem claim_C1_amended (mapAttrs : BeatmapAttributes) (objs : List OsuObject)
    (breaks : List BreakPeriod) (k : ℕ)
    (hk1 : 1 ≤ k) (hk2 : k ≤ objs.length)
    (hsorted : objs.Pairwise fun a b => a.startTime ≤ b.startTime)
    (hbrwf : ∀ b ∈ breaks, b.startTime ≤ b.endTime)
    (hns : ∀ b ∈ breaks, ∀ o ∈ objs.take k,
      b.endTime < o.startTime ∨ o.startTime ≤ b.startTime)
    (hattrs : 0 ≤ mapAttrs.hp + mapAttrs.od + mapAttrs.cs)
    (hbound : (((((objs.take k).flatMap simulate_hit_actions).foldl gradual_process_action
        (inner_default, attrs_default, ([] : List ℕ))).2.2.sum : ℤ) *
        batch_score_multiplier objs breaks mapAttrs k : ℤ) ≤ 2 ^ 31 - 1) :
    gradual_run mapAttrs objs breaks k =
      some (osu_legacy_simulate objs breaks mapAttrs k) := by
  have hlen : (objs.take k).length = k := by
    rw [List.length_take]
    omega
  have hne : objs.take k ≠ [] := by
    intro h
    rw [h] at hlen
    simp at hlen
    omega
  obtain ⟨first, hf⟩ : ∃ x, (objs.take k).head? = some x := by
    cases hhd : (objs.take k).head? with
    | none => exact absurd (List.head?_eq_none_iff.mp hhd) hne
    | some x => exact ⟨x, rfl⟩
  obtain ⟨last, hl⟩ : ∃ x, (objs.take k).getLast? = some x := by
    cases hgl : (objs.take k).getLast? with
    | none => exact absurd (List.getLast?_eq_none_iff.mp hgl) hne
    | some x => exact ⟨x, rfl⟩
  have hhead : objs.head? = some first := by
    rw [← hf]
    cases objs with
    | nil => simp at hlen; omega
    | cons x xs =>
      cases k with
      | zero => omega
      | succ k' => simp [List.take]
  have hget : objs.get? (k - 1) = some last := by
    rw [List.get?_eq_getElem?]
    rw [List.getLast?_eq_getElem?, hlen] at hl
    rw [← List.getElem?_take_of_lt (show k - 1 < k by omega)]
    exact hl
  have hM : batch_score_multiplier objs breaks mapAttrs k =
      calculate_difficulty_peppy_stars mapAttrs (k : ℤ)
        (Int.div (round_ties_even last.startTime - round_ties_even first.startTime -
          ((breaks.takeWhile fun b => b.endTime < last.startTime).map fun b =>
            round_ties_even b.endTime - round_ties_even b.startTime).sum) 1000) := by
    rw [batch_score_multiplier, hhead, hget]
    rw [show ((some last).orElse fun _ => objs.getLast?) = some last from rfl]
    rw [min_eq_left (show (k : ℤ) ≤ (objs.length : ℤ) by exact_mod_cast hk2)]
  have hMnonneg : 0 ≤ batch_score_multiplier objs breaks mapAttrs k := by
    rw [hM]
    exact calculate_difficulty_peppy_stars_nonneg mapAttrs _ _ hattrs
  rw [gradual_run, gradual_fold_run mapAttrs breaks hbrwf (objs.take k) first last hf hl
    (hsorted.take) hns]
  rw [Option.map_some']
  simp only [gradual_spec_state]
  rw [hlen, ← hM]
  rw [i32_clamp_eq_self _
    (le_trans (by norm_num) (mul_nonneg (Int.natCast_nonneg _) hMnonneg)) hbound]
  simp only [osu_legacy_simulate]
  rw [foldl_foldl_bind (batch_process_action (batch_score_multiplier objs breaks mapAttrs k))
    simulate_hit_actions (objs.take k) (inner_default, attrs_default)]
  rw [batch_fold_eq ((objs.take k).flatMap simulate_hit_actions)
    (batch_score_multiplier objs breaks mapAttrs k) inner_default attrs_default]
  rw [sum_map_clamp_eq _ _ hMnonneg hbound]
  simp only [attrs_default, zero_add]

end RosuPP

namespace RosuPP

lemma claim_C1_wit_m :
    batch_score_multiplier [⟨0, .circle⟩, ⟨50000, .circle⟩, ⟨100000, .circle⟩] []
      ⟨7, 6, 57 / 10⟩ 3 = 2 := by
  rw [batch_score_multiplier]
  norm_num [List.takeWhile, claim_C1_cex_rte0, claim_C1_cex_rte10,
    show Int.div 100000 1000 = 100 by decide, claim_C1_cex_mb]

theorem claim_C1_witness :
    gradual_run ⟨7, 6, 57 / 10⟩ [⟨0, .circle⟩, ⟨50000, .circle⟩, ⟨100000, .circle⟩] [] 3 =
      some (osu_legacy_simulate [⟨0, .circle⟩, ⟨50000, .circle⟩, ⟨100000, .circle⟩] []
        ⟨7, 6, 57 / 10⟩ 3) :=
  claim_C1_amended ⟨7, 6, 57 / 10⟩ [⟨0, .circle⟩, ⟨50000, .circle⟩, ⟨100000, .circle⟩] [] 3
    (by norm_num) (by simp) (by decide) (by simp) (by simp) (by norm_num)
    (by rw [claim_C1_wit_m]; decide)

end RosuPP
